import Mathlib

/-!
Verification of the DPLL SAT solver (`dpll_solve.py`) and the Sudoku CNF
encoder (`sudoku.py`).

The Python code is shallowly embedded.  Clauses are lists of integer
literals, a clause database is a list of clauses, and the assignment
dictionary is an insertion-ordered association list from variable ids to
`Option Bool` (`none` models Python's `None`, i.e. Unassigned).  The
recursive functions of the source are embedded with an explicit fuel
argument (the recursion of `solve_sat` strictly decreases the number of
unassigned entries, the one of `assign_pure_literals` strictly decreases
the clause count), and the exported wrappers call them with provably
sufficient fuel; the lemma `solve_sat_branch_eq` below recovers the exact
recursive equation of the source.  A `none` result of `solve_sat` models
the `ValueError` raised by `val_list.index(None)` when no unassigned
entry exists.
-/

abbrev Clause := List Int
abbrev Db := List Clause
abbrev Assm := List (Nat × Option Bool)

/-- `check_done(clauses)` from dpll_solve.py: `some true` if the database is
empty, `some false` if some clause is empty, `none` (Python `None`) otherwise. -/
def check_done (clauses : Db) : Option Bool :=
  if clauses.length = 0 then some true
  else if clauses.any (fun c => c.length == 0) then some false
  else none

/-- The boolean stored by `assign(assm, p)`: `1` when `p >= 0`, else `0`. -/
def litVal (p : Int) : Bool := decide (0 ≤ p)

/-- Python dict assignment `d[k] = v` on an insertion-ordered association
list: update the entry in place if the key is present, else append.  A Python
dict never holds duplicate keys; on such lists updating every matching entry
coincides with updating the unique one. -/
def setKey (assm : Assm) (k : Nat) (v : Option Bool) : Assm :=
  if assm.any (fun kv => kv.1 == k) then
    assm.map (fun kv => if kv.1 == k then (kv.1, v) else kv)
  else
    assm ++ [(k, v)]

/-- `assign(assm, p)` from dpll_solve.py: `assm[abs(p)] = 1 if p >= 0 else 0`. -/
def assign (assm : Assm) (p : Int) : Assm :=
  setKey assm p.natAbs (some (litVal p))

/-- `simplify(clauses, p)` from dpll_solve.py: clauses containing `p` are
deleted; each remaining clause has `-p` removed via Python's `list.remove`,
which (like `List.erase`) removes only the first occurrence. -/
def simplify (clauses : Db) (p : Int) : Db :=
  (clauses.filter (fun c => ! c.contains p)).map (fun c => c.erase (-p))

/-- One step of `get_vars`: `assm[abs(p)] = None`. -/
def add_var (assm : Assm) (k : Nat) : Assm := setKey assm k none

/-- `get_vars(clauses)` from dpll_solve.py: the assignment dictionary with one
`None` entry per variable, keys in first-occurrence order. -/
def get_vars (clauses : Db) : Assm :=
  clauses.foldl (fun a c => c.foldl (fun a' p => add_var a' p.natAbs) a) []

/-- The branching-variable lookup of `solve_sat`
(`val_list.index(None); key_list[idx]`): the key of the first entry whose
value is `None`, or `none` when Python would raise `ValueError`. -/
def pickVar (assm : Assm) : Option Nat :=
  (assm.find? (fun kv => kv.2 == none)).map (fun kv => kv.1)

/-- Number of unassigned (`None`) entries of the dictionary. -/
def countNone (assm : Assm) : Nat :=
  (assm.filter (fun kv => kv.2 == none)).length

/-- The scan of `assign_pure_literals`: the single literal of the first
clause of length 1, if any. -/
def findUnit (clauses : Db) : Option Int :=
  match clauses.find? (fun c => c.length == 1) with
  | some (l :: _) => some l
  | _ => none

/-- Fuel-indexed `solve_sat`; each recursive call of the source assigns the
previously unassigned picked variable, so `countNone` strictly decreases. -/
def solveSatF : Nat → Db → Assm → Option (Bool × Assm)
  | 0, _, _ => none
  | fuel+1, clauses, assm =>
    match check_done clauses with
    | some r => some (r, assm)
    | none =>
      match pickVar assm with
      | none => none
      | some p =>
        let a1 := assign assm (-(p : Int))
        match solveSatF fuel (simplify clauses (-(p : Int))) a1 with
        | none => none
        | some (sat1, a) =>
          if sat1 then some (sat1, a)
          else solveSatF fuel (simplify clauses (p : Int)) (assign a1 (p : Int))

/-- `solve_sat(clauses, assm)` from dpll_solve.py.  `some (sat, assm)` is the
returned pair; `none` models the `ValueError` of `val_list.index(None)`. -/
def solve_sat (clauses : Db) (assm : Assm) : Option (Bool × Assm) :=
  solveSatF (countNone assm + 1) clauses assm

/-- Fuel-indexed `assign_pure_literals`; each iteration deletes the processed
unit clause, so the clause count strictly decreases. -/
def purePassF : Nat → Db → Assm → Db × Assm
  | 0, clauses, assm => (clauses, assm)
  | fuel+1, clauses, assm =>
    match findUnit clauses with
    | none => (clauses, assm)
    | some l => purePassF fuel (simplify clauses l) (assign assm l)

/-- `assign_pure_literals(clauses, assm)` from dpll_solve.py. -/
def assign_pure_literals (clauses : Db) (assm : Assm) : Db × Assm :=
  purePassF (clauses.length + 1) clauses assm

/-- `dpll(clauses)` from dpll_solve.py.  When `check_done` is decisive the
source returns the bare boolean (modelled `Sum.inl`); otherwise it returns
the pair produced by `solve_sat` (modelled `Sum.inr`). -/
def dpll (clauses : Db) : Sum Bool (Option (Bool × Assm)) :=
  match check_done clauses with
  | some r => Sum.inl r
  | none =>
    let assm := get_vars clauses
    let ca := assign_pure_literals clauses assm
    Sum.inr (solve_sat ca.1 ca.2)

/-- The satisfiability verdict reported by `dpll`, whichever shape the
return value has (`none` when `solve_sat` would raise). -/
def reportedSat : Sum Bool (Option (Bool × Assm)) → Option Bool
  | Sum.inl b => some b
  | Sum.inr none => none
  | Sum.inr (some (b, _)) => some b

/-- Dictionary lookup: the value stored under key `k`, or `none` if absent. -/
def lookupA (assm : Assm) (k : Nat) : Option (Option Bool) :=
  (assm.find? (fun kv => kv.1 == k)).map (fun kv => kv.2)

/-- Literal `l` is made true by the assignment: its variable is bound to the
value `assign` would store for `l`. -/
def litSat (assm : Assm) (l : Int) : Prop :=
  lookupA assm l.natAbs = some (some (litVal l))

/-- The clause (a disjunction) is satisfied by the assignment. -/
def clauseSat (assm : Assm) (c : Clause) : Prop :=
  ∃ l ∈ c, litSat assm l

instance (assm : Assm) (c : Clause) : Decidable (clauseSat assm c) := by
  unfold clauseSat litSat
  infer_instance

/-- No clause of the database repeats a literal. -/
def nodupDb (clauses : Db) : Prop := ∀ c ∈ clauses, c.Nodup

instance (clauses : Db) : Decidable (nodupDb clauses) := by
  unfold nodupDb
  infer_instance

/-- The keys of the dictionary are pairwise distinct (true of every Python
dict, and preserved by all operations of the source). -/
def keysND (assm : Assm) : Prop := (assm.map (fun kv => kv.1)).Nodup

/-- Every variable occurring in the database has an Unassigned entry in the
dictionary (the invariant of §3 of the spec, in its strong form). -/
def dbInv (clauses : Db) (assm : Assm) : Prop :=
  ∀ l c, c ∈ clauses → l ∈ c → lookupA assm l.natAbs = some none

/-- The variable table `s` of sudoku.py, literally as the nested list
comprehension builds it: the OUTER comprehension ranges over `z`, the middle
one over `y`, the INNER one over `x`, each entry being
`(n*n*n*n*x) + (n*n*y) + z + 1`. -/
def sTable (n : Nat) : List (List (List Nat)) :=
  (List.range (n*n)).map (fun z =>
    (List.range (n*n)).map (fun y =>
      (List.range (n*n)).map (fun x => n*n*n*n*x + n*n*y + z + 1)))

/-- The subscript access `s[x][y][z]` (out-of-range indices default to 0,
which never occurs in the program). -/
def sIdx (n x y z : Nat) : Nat := (((sTable n).getD x []).getD y []).getD z 0

/-- All identifiers stored in the table `s`. -/
def sEntries (n : Nat) : List Nat :=
  (sTable n).flatMap (fun pl => pl.flatMap (fun row => row))

/-- First loop nest of `box_clauses` in sudoku.py: for each value, forbidden
pairs of cells in the same row of the same box (`k` ranges over the Python
`range(y+1, n)`). -/
def box_pass1 (n : Nat) : Db :=
  (List.range n).flatMap fun x =>
    (List.range n).flatMap fun y =>
      (List.range (n*n)).flatMap fun z =>
        (List.range n).flatMap fun i =>
          (List.range n).flatMap fun j =>
            (List.range' (y+1) (n - (y+1))).map fun k =>
              [-(sIdx n (n*i+x) (n*j+y) z : Int), -(sIdx n (n*i+x) (n*j+k) z : Int)]

/-- Second loop nest of `box_clauses`: for each value, forbidden pairs of
same-box cells whose row offsets differ (`k` over `range(x+1, n)`, `l` over
`range(n)`). -/
def box_pass2 (n : Nat) : Db :=
  (List.range n).flatMap fun x =>
    (List.range n).flatMap fun y =>
      (List.range (n*n)).flatMap fun z =>
        (List.range n).flatMap fun i =>
          (List.range n).flatMap fun j =>
            (List.range' (x+1) (n - (x+1))).flatMap fun k =>
              (List.range n).map fun l =>
                [-(sIdx n (n*i+x) (n*j+y) z : Int), -(sIdx n (n*i+k) (n*j+l) z : Int)]

/-- `box_clauses(n, s, clauses)` from sudoku.py: the clauses appended by the
two loop nests, in order. -/
def box_clauses (n : Nat) : Db := box_pass1 n ++ box_pass2 n

/-- Innermost layer of the loop-variable tuples of the first nest of
`box_clauses`: `k` over the Python `range(y+1, n)`. -/
def tuples1K (n x y z i j : Nat) : List (Nat × Nat × Nat × Nat × Nat × Nat) :=
  (List.range' (y+1) (n - (y+1))).map fun k => (x, y, z, i, j, k)

/-- Layer `j` of the first nest's loop tuples. -/
def tuples1J (n x y z i : Nat) : List (Nat × Nat × Nat × Nat × Nat × Nat) :=
  (List.range n).flatMap fun j => tuples1K n x y z i j

/-- Layer `i` of the first nest's loop tuples. -/
def tuples1I (n x y z : Nat) : List (Nat × Nat × Nat × Nat × Nat × Nat) :=
  (List.range n).flatMap fun i => tuples1J n x y z i

/-- Layer `z` of the first nest's loop tuples. -/
def tuples1Z (n x y : Nat) : List (Nat × Nat × Nat × Nat × Nat × Nat) :=
  (List.range (n*n)).flatMap fun z => tuples1I n x y z

/-- Layer `y` of the first nest's loop tuples. -/
def tuples1Y (n x : Nat) : List (Nat × Nat × Nat × Nat × Nat × Nat) :=
  (List.range n).flatMap fun y => tuples1Z n x y

/-- The loop-variable tuples `(x, y, z, i, j, k)` of the first nest of
`box_clauses`, in emission order. -/
def tuples1 (n : Nat) : List (Nat × Nat × Nat × Nat × Nat × Nat) :=
  (List.range n).flatMap fun x => tuples1Y n x

/-- Innermost layer of the second nest's loop tuples: `l` over `range(n)`. -/
def tuples2L (n x y z i j k : Nat) : List (Nat × Nat × Nat × Nat × Nat × Nat × Nat) :=
  (List.range n).map fun l => (x, y, z, i, j, k, l)

/-- Layer `k` of the second nest's loop tuples: `k` over `range(x+1, n)`. -/
def tuples2K (n x y z i j : Nat) : List (Nat × Nat × Nat × Nat × Nat × Nat × Nat) :=
  (List.range' (x+1) (n - (x+1))).flatMap fun k => tuples2L n x y z i j k

/-- Layer `j` of the second nest's loop tuples. -/
def tuples2J (n x y z i : Nat) : List (Nat × Nat × Nat × Nat × Nat × Nat × Nat) :=
  (List.range n).flatMap fun j => tuples2K n x y z i j

/-- Layer `i` of the second nest's loop tuples. -/
def tuples2I (n x y z : Nat) : List (Nat × Nat × Nat × Nat × Nat × Nat × Nat) :=
  (List.range n).flatMap fun i => tuples2J n x y z i

/-- Layer `z` of the second nest's loop tuples. -/
def tuples2Z (n x y : Nat) : List (Nat × Nat × Nat × Nat × Nat × Nat × Nat) :=
  (List.range (n*n)).flatMap fun z => tuples2I n x y z

/-- Layer `y` of the second nest's loop tuples. -/
def tuples2Y (n x : Nat) : List (Nat × Nat × Nat × Nat × Nat × Nat × Nat) :=
  (List.range n).flatMap fun y => tuples2Z n x y

/-- The loop-variable tuples `(x, y, z, i, j, k, l)` of the second nest. -/
def tuples2 (n : Nat) : List (Nat × Nat × Nat × Nat × Nat × Nat × Nat) :=
  (List.range n).flatMap fun x => tuples2Y n x

/-- The clause emitted by the first nest for a given loop tuple. -/
def clause1 (n : Nat) : Nat × Nat × Nat × Nat × Nat × Nat → Clause
  | (x, y, z, i, j, k) =>
    [-(sIdx n (n*i+x) (n*j+y) z : Int), -(sIdx n (n*i+x) (n*j+k) z : Int)]

/-- The clause emitted by the second nest for a given loop tuple. -/
def clause2 (n : Nat) : Nat × Nat × Nat × Nat × Nat × Nat × Nat → Clause
  | (x, y, z, i, j, k, l) =>
    [-(sIdx n (n*i+x) (n*j+y) z : Int), -(sIdx n (n*i+k) (n*j+l) z : Int)]

/-- Number of eliminations performed by the `assign_pure_literals` loop
(fuel-indexed; one per unit clause processed). -/
def purePassCountF : Nat → Db → Nat
  | 0, _ => 0
  | fuel+1, clauses =>
    match findUnit clauses with
    | none => 0
    | some l => purePassCountF fuel (simplify clauses l) + 1

/-- Number of eliminations performed by `assign_pure_literals`. -/
def purePassCount (clauses : Db) : Nat := purePassCountF (clauses.length + 1) clauses

/-- Number of nested branching levels the `solve_sat` recursion actually
performs (0 at a base case, 1 + the depth of the branches explored). -/
def solveSatDepthF : Nat → Db → Assm → Nat
  | 0, _, _ => 0
  | fuel+1, clauses, assm =>
    match check_done clauses with
    | some _ => 0
    | none =>
      match pickVar assm with
      | none => 0
      | some p =>
        let a1 := assign assm (-(p : Int))
        let d1 := solveSatDepthF fuel (simplify clauses (-(p : Int))) a1
        match solveSatF fuel (simplify clauses (-(p : Int))) a1 with
        | none => d1 + 1
        | some (sat1, _) =>
          if sat1 then d1 + 1
          else max d1 (solveSatDepthF fuel (simplify clauses (p : Int)) (assign a1 (p : Int))) + 1

/-- Branching depth of the search started by `solve_sat`. -/
def solveSatDepth (clauses : Db) (assm : Assm) : Nat :=
  solveSatDepthF (countNone assm + 1) clauses assm

/-! ### Association list lemmas -/

lemma lookupA_cons (ak : Nat) (av : Option Bool) (l : Assm) (k : Nat) :
    lookupA ((ak, av) :: l) k = if ak = k then some av else lookupA l k := by
  by_cases h : ak = k
  · simp [lookupA, List.find?, h]
  · simp [lookupA, List.find?, h, beq_eq_false_iff_ne.mpr h]

lemma countNone_cons (ak : Nat) (av : Option Bool) (l : Assm) :
    countNone ((ak, av) :: l) = (if av = none then 1 else 0) + countNone l := by
  cases av <;> simp [countNone, List.filter] <;> omega

lemma lookupA_mapSet_self (k : Nat) (v : Option Bool) :
    ∀ (A : Assm), (∃ kv ∈ A, kv.1 = k) →
      lookupA (A.map (fun kv => if kv.1 == k then (kv.1, v) else kv)) k = some v := by
  intro A
  induction A with
  | nil => intro h; simp at h
  | cons a l ih =>
    intro h
    rcases a with ⟨ak, av⟩
    simp only [List.map_cons]
    by_cases ha : ak = k
    · rw [if_pos (by simpa using ha)]
      simp [lookupA_cons, ha]
    · rw [if_neg (by simpa using ha)]
      rw [lookupA_cons, if_neg ha]
      apply ih
      rcases h with ⟨kv, hm, hk⟩
      rcases List.mem_cons.mp hm with h1 | h1
      · exact absurd (by simpa [h1] using hk) ha
      · exact ⟨kv, h1, hk⟩

lemma lookupA_append_self (k : Nat) (v : Option Bool) :
    ∀ (A : Assm), (∀ kv ∈ A, kv.1 ≠ k) → lookupA (A ++ [(k, v)]) k = some v := by
  intro A
  induction A with
  | nil => simp [lookupA_cons]
  | cons a l ih =>
    intro h
    rcases a with ⟨ak, av⟩
    rw [List.cons_append, lookupA_cons, if_neg (h (ak, av) (List.mem_cons_self _ _))]
    exact ih (fun kv hm => h kv (List.mem_cons_of_mem _ hm))

lemma lookupA_mapSet_other (k k' : Nat) (v : Option Bool) (hne : k' ≠ k) :
    ∀ (A : Assm),
      lookupA (A.map (fun kv => if kv.1 == k then (kv.1, v) else kv)) k' = lookupA A k' := by
  intro A
  induction A with
  | nil => rfl
  | cons a l ih =>
    rcases a with ⟨ak, av⟩
    simp only [List.map_cons]
    by_cases ha : ak = k
    · rw [if_pos (by simpa using ha)]
      have hak : ak ≠ k' := by rw [ha]; exact fun hh => hne hh.symm
      rw [lookupA_cons, lookupA_cons, if_neg hak, if_neg hak]
      exact ih
    · rw [if_neg (by simpa using ha)]
      rw [lookupA_cons, lookupA_cons]
      by_cases hk' : ak = k'
      · rw [if_pos hk', if_pos hk']
      · rw [if_neg hk', if_neg hk']
        exact ih

lemma lookupA_append_other (k k' : Nat) (v : Option Bool) (hne : k' ≠ k) :
    ∀ (A : Assm), lookupA (A ++ [(k, v)]) k' = lookupA A k' := by
  intro A
  induction A with
  | nil => simp [lookupA, List.find?, beq_eq_false_iff_ne.mpr (Ne.symm hne)]
  | cons a l ih =>
    rcases a with ⟨ak, av⟩
    rw [List.cons_append, lookupA_cons, lookupA_cons]
    by_cases hk' : ak = k'
    · rw [if_pos hk', if_pos hk']
    · rw [if_neg hk', if_neg hk']
      exact ih

lemma lookupA_setKey_self (A : Assm) (k : Nat) (v : Option Bool) :
    lookupA (setKey A k v) k = some v := by
  unfold setKey
  by_cases h : A.any (fun kv => kv.1 == k)
  · rw [if_pos h]
    apply lookupA_mapSet_self
    simpa [List.any_eq_true, beq_iff_eq] using h
  · rw [if_neg h]
    apply lookupA_append_self
    intro kv hkv
    simp only [List.any_eq_true, beq_iff_eq, not_exists, not_and] at h
    exact h kv hkv

lemma lookupA_setKey_other (A : Assm) (k k' : Nat) (v : Option Bool) (hne : k' ≠ k) :
    lookupA (setKey A k v) k' = lookupA A k' := by
  unfold setKey
  by_cases h : A.any (fun kv => kv.1 == k)
  · rw [if_pos h]
    exact lookupA_mapSet_other k k' v hne A
  · rw [if_neg h]
    exact lookupA_append_other k k' v hne A

lemma countNone_mapSet_le (k : Nat) (b : Bool) :
    ∀ (A : Assm),
      countNone (A.map (fun kv => if kv.1 == k then (kv.1, some b) else kv)) ≤ countNone A := by
  intro A
  induction A with
  | nil => simp
  | cons a l ih =>
    rcases a with ⟨ak, av⟩
    simp only [List.map_cons]
    by_cases ha : ak = k
    · rw [if_pos (by simpa using ha)]
      rw [countNone_cons, countNone_cons]
      simp only [reduceCtorEq, if_false]
      split <;> omega
    · rw [if_neg (by simpa using ha)]
      rw [countNone_cons, countNone_cons]
      omega

lemma countNone_append_some (k : Nat) (b : Bool) :
    ∀ (A : Assm), countNone (A ++ [(k, some b)]) = countNone A := by
  intro A
  induction A with
  | nil => simp [countNone, List.filter]
  | cons a l ih =>
    rcases a with ⟨ak, av⟩
    rw [List.cons_append, countNone_cons, countNone_cons, ih]

lemma countNone_assign_le (A : Assm) (p : Int) :
    countNone (assign A p) ≤ countNone A := by
  unfold assign setKey
  by_cases h : A.any (fun kv => kv.1 == p.natAbs)
  · rw [if_pos h]; exact countNone_mapSet_le _ _ A
  · rw [if_neg h]; rw [countNone_append_some]

lemma countNone_mapSet_lt (k : Nat) (b : Bool) :
    ∀ (A : Assm), (k, (none : Option Bool)) ∈ A →
      countNone (A.map (fun kv => if kv.1 == k then (kv.1, some b) else kv)) < countNone A := by
  intro A
  induction A with
  | nil => intro h; simp at h
  | cons a l ih =>
    intro hmem
    rcases a with ⟨ak, av⟩
    simp only [List.map_cons]
    rcases List.mem_cons.mp hmem with h1 | h1
    · have hk' : k = ak := by injection h1
      have hv' : (none : Option Bool) = av := by injection h1
      subst hk'
      subst hv'
      rw [if_pos (by simp)]
      rw [countNone_cons, countNone_cons]
      have hle := countNone_mapSet_le k b l
      have e1 : (if (some b : Option Bool) = none then 1 else 0) = 0 := rfl
      have e2 : (if (none : Option Bool) = none then 1 else 0) = 1 := rfl
      rw [e1, e2]
      omega
    · have hlt := ih h1
      by_cases ha : ak = k
      · rw [if_pos (by simpa using ha)]
        rw [countNone_cons, countNone_cons]
        simp only [reduceCtorEq, if_false]
        split <;> omega
      · rw [if_neg (by simpa using ha)]
        rw [countNone_cons, countNone_cons]
        omega

lemma countNone_assign_lt (A : Assm) (p : Int) (hmem : (p.natAbs, (none : Option Bool)) ∈ A) :
    countNone (assign A p) < countNone A := by
  unfold assign setKey
  have h : A.any (fun kv => kv.1 == p.natAbs) = true := by
    simp only [List.any_eq_true, beq_iff_eq]
    exact ⟨(p.natAbs, none), hmem, rfl⟩
  rw [if_pos h]
  exact countNone_mapSet_lt _ _ A hmem

lemma keys_mapSet (A : Assm) (k : Nat) (v : Option Bool) :
    (A.map (fun kv => if kv.1 == k then (kv.1, v) else kv)).map (fun kv => kv.1)
      = A.map (fun kv => kv.1) := by
  rw [List.map_map]
  apply List.map_congr_left
  intro kv _
  by_cases h : kv.1 = k <;> simp [h]

lemma keysND_setKey (A : Assm) (k : Nat) (v : Option Bool) (hnd : keysND A) :
    keysND (setKey A k v) := by
  unfold setKey
  by_cases h : A.any (fun kv => kv.1 == k)
  · rw [if_pos h]
    unfold keysND
    rw [keys_mapSet]
    exact hnd
  · rw [if_neg h]
    unfold keysND
    rw [List.map_append]
    rw [List.nodup_append]
    refine ⟨hnd, List.nodup_singleton _, ?_⟩
    intro a ha hb
    simp only [List.map_cons, List.map_nil, List.mem_singleton] at hb
    subst hb
    simp only [List.any_eq_true, beq_iff_eq, not_exists, not_and] at h
    rcases List.mem_map.mp ha with ⟨kv, hkv, hkk⟩
    exact h kv hkv hkk

lemma keysND_assign (A : Assm) (p : Int) (hnd : keysND A) : keysND (assign A p) :=
  keysND_setKey A p.natAbs _ hnd

lemma pickVar_mem_none (A : Assm) (p : Nat) (h : pickVar A = some p) :
    (p, (none : Option Bool)) ∈ A := by
  unfold pickVar at h
  cases hf : A.find? (fun kv => kv.2 == none) with
  | none => rw [hf] at h; simp at h
  | some kv =>
    rw [hf] at h
    simp only [Option.map_some'] at h
    have hk : kv.1 = p := by injection h
    have hv : kv.2 = none := by simpa using List.find?_some hf
    have hm : kv ∈ A := List.mem_of_find?_eq_some hf
    have : kv = (p, none) := by
      rcases kv with ⟨a, b⟩
      simp only at hk hv
      rw [hk, hv]
    rw [← this]
    exact hm

lemma pickVar_some_of_mem_none (A : Assm) (hex : ∃ kv ∈ A, kv.2 = none) :
    ∃ p, pickVar A = some p := by
  rcases hex with ⟨kv, hm, hv⟩
  unfold pickVar
  cases hf : A.find? (fun kv => kv.2 == none) with
  | none =>
    rw [List.find?_eq_none] at hf
    exact absurd (by simp [hv]) (hf kv hm)
  | some kv' => exact ⟨kv'.1, by simp⟩

lemma mem_of_lookupA (A : Assm) (k : Nat) (w : Option Bool) (h : lookupA A k = some w) :
    (k, w) ∈ A := by
  unfold lookupA at h
  cases hf : A.find? (fun kv => kv.1 == k) with
  | none => rw [hf] at h; simp at h
  | some kv =>
    rw [hf] at h
    simp only [Option.map_some'] at h
    have hv : kv.2 = w := by injection h
    have hk : kv.1 = k := by simpa using List.find?_some hf
    have hm : kv ∈ A := List.mem_of_find?_eq_some hf
    have : kv = (k, w) := by
      rcases kv with ⟨a, b⟩
      simp only at hk hv
      rw [hk, hv]
    rw [← this]
    exact hm

lemma keysND_cons (ak : Nat) (av : Option Bool) (l : Assm) :
    keysND ((ak, av) :: l) ↔ (∀ kv ∈ l, kv.1 ≠ ak) ∧ keysND l := by
  unfold keysND
  simp only [List.map_cons, List.nodup_cons, List.mem_map]
  constructor
  · rintro ⟨h1, h2⟩
    refine ⟨?_, h2⟩
    intro kv hkv hk
    exact h1 ⟨kv, hkv, hk⟩
  · rintro ⟨h1, h2⟩
    refine ⟨?_, h2⟩
    rintro ⟨kv, hkv, hk⟩
    exact h1 kv hkv hk

lemma pickVar_lookup_none (p : Nat) :
    ∀ (A : Assm), keysND A → pickVar A = some p →
      lookupA A p = some none := by
  intro A
  induction A with
  | nil => intro _ h; simp [pickVar, List.find?] at h
  | cons a l ih =>
    intro hnd hp
    rcases a with ⟨ak, av⟩
    rw [keysND_cons] at hnd
    by_cases hav : av = none
    · subst hav
      have : pickVar ((ak, none) :: l) = some ak := by
        simp [pickVar, List.find?]
      rw [this] at hp
      have hak : ak = p := by injection hp
      rw [lookupA_cons, if_pos hak]
    · have hstep : pickVar ((ak, av) :: l) = pickVar l := by
        cases av with
        | none => exact absurd rfl hav
        | some b => simp [pickVar, List.find?]
      rw [hstep] at hp
      have hmem := pickVar_mem_none l p hp
      have hne : ak ≠ p := by
        intro hh
        exact hnd.1 (p, none) hmem (by rw [hh])
      rw [lookupA_cons, if_neg hne]
      exact ih hnd.2 hp

/-! ### simplify, findUnit and check_done lemmas -/

lemma simplify_length_le (C : Db) (p : Int) : (simplify C p).length ≤ C.length := by
  unfold simplify
  rw [List.length_map]
  exact List.length_filter_le _ _

lemma mem_simplify (C : Db) (p : Int) (c' : Clause) :
    c' ∈ simplify C p ↔ ∃ c ∈ C, p ∉ c ∧ c' = c.erase (-p) := by
  unfold simplify
  simp only [List.mem_map, List.mem_filter, Bool.not_eq_eq_eq_not, Bool.not_true]
  constructor
  · rintro ⟨c, ⟨hc, hcont⟩, rfl⟩
    refine ⟨c, hc, ?_, rfl⟩
    intro hp
    simp [hp] at hcont
  · rintro ⟨c, hc, hp, rfl⟩
    exact ⟨c, ⟨hc, by simp [hp]⟩, rfl⟩

lemma simplify_not_contains (C : Db) (p : Int) (c' : Clause) (h : c' ∈ simplify C p) :
    p ∉ c' := by
  rcases (mem_simplify C p c').mp h with ⟨c, _, hp, rfl⟩
  intro hmem
  exact hp ((List.erase_sublist (-p) c).subset hmem)

lemma nodupDb_simplify (C : Db) (p : Int) (h : nodupDb C) : nodupDb (simplify C p) := by
  intro c' hc'
  rcases (mem_simplify C p c').mp hc' with ⟨c, hc, _, rfl⟩
  exact (h c hc).erase _

lemma natAbs_ne_of_mem_simplify (C : Db) (p : Int) (c' : Clause) (l' : Int)
    (hnd : nodupDb C) (hc' : c' ∈ simplify C p) (hl' : l' ∈ c') :
    l'.natAbs ≠ p.natAbs := by
  rcases (mem_simplify C p c').mp hc' with ⟨c, hc, hp, rfl⟩
  intro habs
  rcases Int.natAbs_eq_natAbs_iff.mp habs with h1 | h1
  · subst h1
    exact hp ((List.erase_sublist (-l') c).subset hl')
  · have : l' = -p := by omega
    subst this
    have := ((hnd c hc).mem_erase_iff).mp hl'
    exact this.1 rfl

lemma mem_of_mem_simplify (C : Db) (p : Int) (c' : Clause) (l' : Int)
    (hc' : c' ∈ simplify C p) (hl' : l' ∈ c') :
    ∃ c ∈ C, l' ∈ c := by
  rcases (mem_simplify C p c').mp hc' with ⟨c, hc, _, rfl⟩
  exact ⟨c, hc, (List.erase_sublist (-p) c).subset hl'⟩

lemma findUnit_mem (C : Db) (l : Int) (h : findUnit C = some l) : [l] ∈ C := by
  unfold findUnit at h
  cases hf : C.find? (fun c => c.length == 1) with
  | none => rw [hf] at h; exact Option.noConfusion h
  | some c =>
    rw [hf] at h
    have hlen : c.length = 1 := by simpa using List.find?_some hf
    have hm := List.mem_of_find?_eq_some hf
    match c, hlen, hm, h with
    | [l0], _, hm, h =>
      have : l0 = l := by injection h
      subst this
      exact hm

lemma simplify_length_lt_of_mem (C : Db) (p : Int) (c : Clause)
    (hc : c ∈ C) (hp : p ∈ c) : (simplify C p).length < C.length := by
  unfold simplify
  rw [List.length_map]
  have : ∃ x ∈ C, ¬ ((fun c => ! c.contains p) x = true) := by
    refine ⟨c, hc, ?_⟩
    simp [hp]
  calc (C.filter (fun c => ! c.contains p)).length
      < C.length := by
        rcases List.length_filter_lt_length_iff_exists.mpr this with h
        exact h

lemma check_done_eq_some_true (C : Db) (h : check_done C = some true) : C = [] := by
  unfold check_done at h
  by_cases h0 : C.length = 0
  · exact List.eq_nil_of_length_eq_zero h0
  · rw [if_neg h0] at h
    by_cases h1 : C.any (fun c => c.length == 0)
    · rw [if_pos h1] at h
      exact absurd (by injection h) Bool.noConfusion
    · rw [if_neg h1] at h
      exact Option.noConfusion h

lemma check_done_eq_none (C : Db) (h : check_done C = none) :
    C ≠ [] ∧ ∀ c ∈ C, c ≠ [] := by
  unfold check_done at h
  by_cases h0 : C.length = 0
  · rw [if_pos h0] at h
    exact Option.noConfusion h
  · rw [if_neg h0] at h
    by_cases h1 : C.any (fun c => c.length == 0)
    · rw [if_pos h1] at h
      exact Option.noConfusion h
    · refine ⟨fun hn => h0 (by rw [hn]; rfl), ?_⟩
      intro c hc hcn
      subst hcn
      simp only [List.any_eq_true] at h1
      exact h1 ⟨[], hc, rfl⟩

lemma check_done_none_witness (C : Db) (h : check_done C = none) :
    ∃ c ∈ C, ∃ l, l ∈ c := by
  rcases check_done_eq_none C h with ⟨hC, hall⟩
  cases C with
  | nil => exact absurd rfl hC
  | cons c rest =>
    have hc : c ≠ [] := hall c (List.mem_cons_self _ _)
    cases c with
    | nil => exact absurd rfl hc
    | cons l ls => exact ⟨l :: ls, List.mem_cons_self _ _, l, List.mem_cons_self _ _⟩

/-! ### Invariant lemmas -/

lemma lookupA_assign_self (A : Assm) (p : Int) :
    lookupA (assign A p) p.natAbs = some (some (litVal p)) :=
  lookupA_setKey_self A p.natAbs _

lemma lookupA_assign_other (A : Assm) (p : Int) (k : Nat) (hne : k ≠ p.natAbs) :
    lookupA (assign A p) k = lookupA A k :=
  lookupA_setKey_other A p.natAbs k _ hne

lemma dbInv_simplify_of_agree (C : Db) (A A' : Assm) (p : Int)
    (hnd : nodupDb C) (hinv : dbInv C A)
    (hagree : ∀ k, k ≠ p.natAbs → lookupA A' k = lookupA A k) :
    dbInv (simplify C p) A' := by
  intro l' c' hc' hl'
  have hne := natAbs_ne_of_mem_simplify C p c' l' hnd hc' hl'
  rcases mem_of_mem_simplify C p c' l' hc' hl' with ⟨c, hc, hlc⟩
  rw [hagree l'.natAbs hne]
  exact hinv l' c hc hlc

lemma dbInv_step (C : Db) (A : Assm) (p : Int)
    (hnd : nodupDb C) (hinv : dbInv C A) :
    dbInv (simplify C p) (assign A p) :=
  dbInv_simplify_of_agree C A _ p hnd hinv
    (fun k hk => lookupA_assign_other A p k hk)

lemma dbInv_step2 (C : Db) (A : Assm) (p q : Int) (habs : q.natAbs = p.natAbs)
    (hnd : nodupDb C) (hinv : dbInv C A) :
    dbInv (simplify C p) (assign (assign A q) p) := by
  apply dbInv_simplify_of_agree C A _ p hnd hinv
  intro k hk
  rw [lookupA_assign_other _ p k hk, lookupA_assign_other A q k (by rw [habs]; exact hk)]

lemma values_none_setKey (A : Assm) (k : Nat) (hall : ∀ kv ∈ A, kv.2 = none) :
    ∀ kv ∈ setKey A k none, kv.2 = none := by
  unfold setKey
  by_cases h : A.any (fun kv => kv.1 == k)
  · rw [if_pos h]
    intro kv hkv
    rcases List.mem_map.mp hkv with ⟨kv0, hkv0, rfl⟩
    by_cases hk : kv0.1 = k
    · simp [hk]
    · rw [if_neg (by simpa using hk)]
      exact hall kv0 hkv0
  · rw [if_neg h]
    intro kv hkv
    rcases List.mem_append.mp hkv with h1 | h1
    · exact hall kv h1
    · rcases List.mem_singleton.mp h1 with rfl
      rfl

lemma present_setKey_self (A : Assm) (k : Nat) (v : Option Bool) :
    ∃ kv ∈ setKey A k v, kv.1 = k := by
  unfold setKey
  by_cases h : A.any (fun kv => kv.1 == k)
  · rw [if_pos h]
    simp only [List.any_eq_true, beq_iff_eq] at h
    rcases h with ⟨kv0, hkv0, hk0⟩
    refine ⟨(kv0.1, v), List.mem_map.mpr ⟨kv0, hkv0, by simp [hk0]⟩, hk0⟩
  · rw [if_neg h]
    exact ⟨(k, v), List.mem_append_right _ (List.mem_singleton_self _), rfl⟩

lemma present_setKey_mono (A : Assm) (k j : Nat) (v : Option Bool)
    (h : ∃ kv ∈ A, kv.1 = j) : ∃ kv ∈ setKey A k v, kv.1 = j := by
  unfold setKey
  rcases h with ⟨kv0, hkv0, hj⟩
  by_cases h : A.any (fun kv => kv.1 == k)
  · rw [if_pos h]
    by_cases hk : kv0.1 = k
    · exact ⟨(kv0.1, v), List.mem_map.mpr ⟨kv0, hkv0, by simp [hk]⟩, hj⟩
    · exact ⟨kv0, List.mem_map.mpr ⟨kv0, hkv0, by simp [hk]⟩, hj⟩
  · rw [if_neg h]
    exact ⟨kv0, List.mem_append_left _ hkv0, hj⟩

lemma lookupA_isSome_of_present (A : Assm) (k : Nat) (h : ∃ kv ∈ A, kv.1 = k) :
    ∃ w, lookupA A k = some w := by
  rcases h with ⟨kv, hkv, hk⟩
  unfold lookupA
  cases hf : A.find? (fun kv => kv.1 == k) with
  | none =>
    rw [List.find?_eq_none] at hf
    exact absurd (by simp [hk]) (hf kv hkv)
  | some kv' => exact ⟨kv'.2, by simp⟩

lemma innerFold_present_mono (j : Nat) :
    ∀ (c : List Int) (a : Assm), (∃ kv ∈ a, kv.1 = j) →
      ∃ kv ∈ c.foldl (fun a' p => add_var a' p.natAbs) a, kv.1 = j := by
  intro c
  induction c with
  | nil => intro a h; exact h
  | cons p rest ih =>
    intro a h
    exact ih (add_var a p.natAbs) (present_setKey_mono a _ j none h)

lemma innerFold_present_adds (l : Int) :
    ∀ (c : List Int) (a : Assm), l ∈ c →
      ∃ kv ∈ c.foldl (fun a' p => add_var a' p.natAbs) a, kv.1 = l.natAbs := by
  intro c
  induction c with
  | nil => intro a h; simp at h
  | cons p rest ih =>
    intro a h
    rcases List.mem_cons.mp h with rfl | h1
    · exact innerFold_present_mono l.natAbs rest (add_var a l.natAbs)
        (present_setKey_self a l.natAbs none)
    · exact ih (add_var a p.natAbs) h1

lemma outerFold_present_mono (j : Nat) :
    ∀ (C : Db) (a : Assm), (∃ kv ∈ a, kv.1 = j) →
      ∃ kv ∈ C.foldl (fun a c => c.foldl (fun a' p => add_var a' p.natAbs) a) a, kv.1 = j := by
  intro C
  induction C with
  | nil => intro a h; exact h
  | cons c rest ih =>
    intro a h
    exact ih _ (innerFold_present_mono j c a h)

lemma get_vars_present (C : Db) (c : Clause) (l : Int) (hc : c ∈ C) (hl : l ∈ c) :
    ∃ kv ∈ get_vars C, kv.1 = l.natAbs := by
  unfold get_vars
  revert hc
  generalize ([] : Assm) = a
  revert a
  induction C with
  | nil => intro a h; simp at h
  | cons c0 rest ih =>
    intro a hc
    rcases List.mem_cons.mp hc with rfl | h1
    · exact outerFold_present_mono l.natAbs rest _ (innerFold_present_adds l c a hl)
    · exact ih _ h1

lemma get_vars_values_none (C : Db) :
    ∀ kv ∈ get_vars C, kv.2 = none := by
  unfold get_vars
  generalize hgen : ([] : Assm) = a
  have hstart : ∀ kv ∈ a, kv.2 = none := by rw [← hgen]; intro kv h; simp at h
  clear hgen
  revert a
  induction C with
  | nil => intro a h; exact h
  | cons c0 rest ih =>
    intro a hstart
    apply ih
    clear ih
    revert a
    induction c0 with
    | nil => intro a h; exact h
    | cons p ps ihc =>
      intro a hstart
      exact ihc _ (values_none_setKey a p.natAbs hstart)

lemma keysND_get_vars (C : Db) : keysND (get_vars C) := by
  unfold get_vars
  generalize hgen : ([] : Assm) = a
  have hstart : keysND a := by rw [← hgen]; exact List.nodup_nil
  clear hgen
  revert a
  induction C with
  | nil => intro a h; exact h
  | cons c0 rest ih =>
    intro a hstart
    apply ih
    clear ih
    revert a
    induction c0 with
    | nil => intro a h; exact h
    | cons p ps ihc =>
      intro a hstart
      exact ihc _ (keysND_setKey a p.natAbs none hstart)

lemma dbInv_get_vars (C : Db) : dbInv C (get_vars C) := by
  intro l c hc hl
  rcases lookupA_isSome_of_present _ _ (get_vars_present C c l hc hl) with ⟨w, hw⟩
  have hwn : w = none := get_vars_values_none C _ (mem_of_lookupA _ _ _ hw)
  rw [hw]
  exact congrArg some hwn

/-! ### Solver inductions -/

lemma natAbs_neg_coe (p : Nat) : (-(p : Int)).natAbs = p := by
  simp

lemma natAbs_coe (p : Nat) : ((p : Int)).natAbs = p := by
  simp

lemma solveSatF_ne_none :
    ∀ (fuel : Nat) (C : Db) (A : Assm), countNone A < fuel → nodupDb C → dbInv C A →
      solveSatF fuel C A ≠ none := by
  intro fuel
  induction fuel with
  | zero => intro C A h; exact absurd h (Nat.not_lt_zero _)
  | succ f ih =>
    intro C A hfuel hnd hinv
    simp only [solveSatF]
    cases hcd : check_done C with
    | some r => simp
    | none =>
      rcases check_done_none_witness C hcd with ⟨c, hc, l, hl⟩
      have hlook := hinv l c hc hl
      have hex : ∃ kv ∈ A, kv.2 = none := ⟨(l.natAbs, none), mem_of_lookupA _ _ _ hlook, rfl⟩
      rcases pickVar_some_of_mem_none A hex with ⟨p, hp⟩
      simp only [hp]
      have hmem1 : (p, (none : Option Bool)) ∈ A := pickVar_mem_none A p hp
      have hlt1 : countNone (assign A (-(p : Int))) < countNone A :=
        countNone_assign_lt A _ (by rw [natAbs_neg_coe]; exact hmem1)
      cases hrec : solveSatF f (simplify C (-(p : Int))) (assign A (-(p : Int))) with
      | none =>
        exact absurd hrec
          (ih _ _ (by omega) (nodupDb_simplify _ _ hnd) (dbInv_step _ _ _ hnd hinv))
      | some r1 =>
        rcases r1 with ⟨sat1, a⟩
        cases sat1 with
        | true => simp
        | false =>
          simp only [if_neg (Bool.false_ne_true)]
          have hle2 : countNone (assign (assign A (-(p : Int))) (p : Int))
              ≤ countNone (assign A (-(p : Int))) := countNone_assign_le _ _
          exact ih _ _ (by omega) (nodupDb_simplify _ _ hnd)
            (dbInv_step2 C A (p : Int) (-(p : Int)) (by simp) hnd hinv)

lemma solveSatF_preserves :
    ∀ (fuel : Nat) (C : Db) (A : Assm) (r : Bool) (A' : Assm),
      solveSatF fuel C A = some (r, A') → keysND A →
      ∀ k b, lookupA A k = some (some b) → lookupA A' k = some (some b) := by
  intro fuel
  induction fuel with
  | zero => intro C A r A' hres; exact absurd hres (by simp [solveSatF])
  | succ f ih =>
    intro C A r A' hres hnd k b hk
    simp only [solveSatF] at hres
    cases hcd : check_done C with
    | some r0 =>
      rw [hcd] at hres
      simp only at hres
      have hA : A = A' := by injection hres with h1; injection h1
      rw [← hA]
      exact hk
    | none =>
      rw [hcd] at hres
      cases hpv : pickVar A with
      | none => rw [hpv] at hres; exact Option.noConfusion hres
      | some p =>
        rw [hpv] at hres
        simp only at hres
        have hkp : k ≠ p := by
          intro hh
          subst hh
          rw [pickVar_lookup_none k A hnd hpv] at hk
          exact Option.noConfusion (by injection hk)
        have hk1 : lookupA (assign A (-(p : Int))) k = some (some b) := by
          rw [lookupA_assign_other A _ k (by rw [natAbs_neg_coe]; exact hkp)]
          exact hk
        have hnd1 : keysND (assign A (-(p : Int))) := keysND_assign A _ hnd
        cases hrec : solveSatF f (simplify C (-(p : Int))) (assign A (-(p : Int))) with
        | none => rw [hrec] at hres; exact Option.noConfusion hres
        | some r1 =>
          rw [hrec] at hres
          rcases r1 with ⟨sat1, a⟩
          cases sat1 with
          | true =>
            simp only [if_pos rfl] at hres
            have ha : a = A' := by injection hres with h1; injection h1
            rw [← ha]
            exact ih _ _ _ _ hrec hnd1 k b hk1
          | false =>
            simp only [if_neg (Bool.false_ne_true)] at hres
            have hk2 : lookupA (assign (assign A (-(p : Int))) (p : Int)) k = some (some b) := by
              rw [lookupA_assign_other _ _ k (by rw [natAbs_coe]; exact hkp)]
              exact hk1
            exact ih _ _ _ _ hres (keysND_assign _ _ hnd1) k b hk2

lemma solveSatF_sat :
    ∀ (fuel : Nat) (C : Db) (A : Assm) (A' : Assm),
      keysND A → solveSatF fuel C A = some (true, A') →
      ∀ c ∈ C, clauseSat A' c := by
  intro fuel
  induction fuel with
  | zero => intro C A A' _ hres; exact absurd hres (by simp [solveSatF])
  | succ f ih =>
    intro C A A' hnd hres
    simp only [solveSatF] at hres
    cases hcd : check_done C with
    | some r0 =>
      rw [hcd] at hres
      simp only at hres
      have hr0 : r0 = true := by injection hres with h1; injection h1
      subst hr0
      have hC := check_done_eq_some_true C hcd
      subst hC
      intro c hc
      exact absurd hc (List.not_mem_nil c)
    | none =>
      rw [hcd] at hres
      cases hpv : pickVar A with
      | none => rw [hpv] at hres; exact Option.noConfusion hres
      | some p =>
        rw [hpv] at hres
        simp only at hres
        have hnd1 : keysND (assign A (-(p : Int))) := keysND_assign A _ hnd
        cases hrec : solveSatF f (simplify C (-(p : Int))) (assign A (-(p : Int))) with
        | none => rw [hrec] at hres; exact Option.noConfusion hres
        | some r1 =>
          rw [hrec] at hres
          rcases r1 with ⟨sat1, a⟩
          cases sat1 with
          | true =>
            simp only [if_pos rfl] at hres
            have ha : a = A' := by injection hres with h1; injection h1
            subst ha
            have hsimp := ih _ _ _ hnd1 hrec
            intro c hc
            by_cases hmem : (-(p : Int)) ∈ c
            · refine ⟨-(p : Int), hmem, ?_⟩
              unfold litSat
              rw [natAbs_neg_coe]
              have hself : lookupA (assign A (-(p : Int))) p
                  = some (some (litVal (-(p : Int)))) := by
                have := lookupA_assign_self A (-(p : Int))
                rw [natAbs_neg_coe] at this
                exact this
              exact solveSatF_preserves f _ _ _ _ hrec hnd1 p _ hself
            · have hc' : c.erase p ∈ simplify C (-(p : Int)) := by
                rw [mem_simplify]
                refine ⟨c, hc, hmem, ?_⟩
                rw [neg_neg]
              rcases hsimp _ hc' with ⟨l, hl, hls⟩
              exact ⟨l, (List.erase_sublist ((p : Int)) c).subset hl, hls⟩
          | false =>
            simp only [if_neg (Bool.false_ne_true)] at hres
            have hnd2 : keysND (assign (assign A (-(p : Int))) (p : Int)) :=
              keysND_assign _ _ hnd1
            have hsimp := ih _ _ _ hnd2 hres
            intro c hc
            by_cases hmem : ((p : Int)) ∈ c
            · refine ⟨(p : Int), hmem, ?_⟩
              unfold litSat
              rw [natAbs_coe]
              have hself : lookupA (assign (assign A (-(p : Int))) (p : Int)) p
                  = some (some (litVal (p : Int))) := by
                have := lookupA_assign_self (assign A (-(p : Int))) (p : Int)
                rw [natAbs_coe] at this
                exact this
              exact solveSatF_preserves f _ _ _ _ hres hnd2 p _ hself
            · have hc' : c.erase (-(p : Int)) ∈ simplify C (p : Int) := by
                rw [mem_simplify]
                exact ⟨c, hc, hmem, rfl⟩
              rcases hsimp _ hc' with ⟨l, hl, hls⟩
              exact ⟨l, (List.erase_sublist (-(p : Int)) c).subset hl, hls⟩

/-! ### Pure-literal pre-pass lemmas -/

lemma purePassF_inv :
    ∀ (fuel : Nat) (C : Db) (A : Assm), keysND A → dbInv C A → nodupDb C →
      keysND (purePassF fuel C A).2 ∧ dbInv (purePassF fuel C A).1 (purePassF fuel C A).2 ∧
      nodupDb (purePassF fuel C A).1 ∧
      (∀ k b, lookupA A k = some (some b) → lookupA (purePassF fuel C A).2 k = some (some b)) := by
  intro fuel
  induction fuel with
  | zero =>
    intro C A h1 h2 h3
    exact ⟨h1, h2, h3, fun k b hk => hk⟩
  | succ f ih =>
    intro C A h1 h2 h3
    simp only [purePassF]
    cases hfu : findUnit C with
    | none => exact ⟨h1, h2, h3, fun k b hk => hk⟩
    | some l =>
      have hunit : [l] ∈ C := findUnit_mem C l hfu
      have hlook : lookupA A l.natAbs = some none :=
        h2 l [l] hunit (List.mem_singleton_self l)
      have step := ih (simplify C l) (assign A l) (keysND_assign A l h1)
        (dbInv_step C A l h3 h2) (nodupDb_simplify C l h3)
      refine ⟨step.1, step.2.1, step.2.2.1, ?_⟩
      intro k b hk
      have hkl : k ≠ l.natAbs := by
        intro hh
        subst hh
        rw [hlook] at hk
        exact Option.noConfusion (by injection hk)
      exact step.2.2.2 k b (by rw [lookupA_assign_other A l k hkl]; exact hk)

lemma purePassF_sat :
    ∀ (fuel : Nat) (C : Db) (A : Assm) (Afin : Assm), keysND A → dbInv C A → nodupDb C →
      (∀ k b, lookupA (purePassF fuel C A).2 k = some (some b) → lookupA Afin k = some (some b)) →
      (∀ c' ∈ (purePassF fuel C A).1, clauseSat Afin c') →
      ∀ c ∈ C, clauseSat Afin c := by
  intro fuel
  induction fuel with
  | zero =>
    intro C A Afin _ _ _ _ hsat
    exact hsat
  | succ f ih =>
    intro C A Afin h1 h2 h3 hchain hsat
    simp only [purePassF] at hchain hsat
    cases hfu : findUnit C with
    | none =>
      rw [hfu] at hchain hsat
      exact hsat
    | some l =>
      rw [hfu] at hchain hsat
      have hunit : [l] ∈ C := findUnit_mem C l hfu
      have h1' : keysND (assign A l) := keysND_assign A l h1
      have h2' : dbInv (simplify C l) (assign A l) := dbInv_step C A l h3 h2
      have h3' : nodupDb (simplify C l) := nodupDb_simplify C l h3
      have hrest := ih (simplify C l) (assign A l) Afin h1' h2' h3' hchain hsat
      intro c hc
      by_cases hmem : l ∈ c
      · refine ⟨l, hmem, ?_⟩
        unfold litSat
        have hself := lookupA_assign_self A l
        have hpp := (purePassF_inv f (simplify C l) (assign A l) h1' h2' h3').2.2.2
        exact hchain _ _ (hpp l.natAbs _ hself)
      · have hc' : c.erase (-l) ∈ simplify C l := by
          rw [mem_simplify]
          exact ⟨c, hc, hmem, rfl⟩
        rcases hrest _ hc' with ⟨l', hl', hls⟩
        exact ⟨l', (List.erase_sublist (-l) c).subset hl', hls⟩

/-! ### dpll characterization -/

lemma dpll_char_some (C : Db) (r : Bool) (h : check_done C = some r) :
    dpll C = Sum.inl r := by
  unfold dpll
  rw [h]

lemma dpll_char_none (C : Db) (h : check_done C = none) :
    dpll C = Sum.inr (solve_sat (assign_pure_literals C (get_vars C)).1
      (assign_pure_literals C (get_vars C)).2) := by
  unfold dpll
  rw [h]

/-! ### Claims about the DPLL engine -/

/-- Claim C1, counterexample.  On `[[1,2],[2,3]]` the engine reports
satisfiable with variable 3 left Unassigned (the assignment is not total),
and on `[[1],[-1,-1]]` (a clause repeating a literal) it even reports
satisfiable with an assignment that falsifies the clause `[1]` of the
original database. -/
theorem c1_counterexample :
    dpll [[1,2],[2,3]] = Sum.inr (some (true, [(1, some false), (2, some true), (3, none)]))
    ∧ lookupA [(1, some false), (2, some true), (3, none)] 3 = some none
    ∧ dpll [[1],[-1,-1]] = Sum.inr (some (true, [(1, some false)]))
    ∧ ¬ clauseSat [(1, some false)] [1]
    ∧ [1] ∈ [[1],[-1,-1]] :=
  ⟨by decide, by decide, by decide, by decide, by decide⟩

/-- Claim C1 (amended): if no clause of the database repeats a literal and
the engine returns a `(true, assignment)` pair, the returned assignment
satisfies every clause of the original database (each clause has a literal
whose variable is bound to the literal's polarity).  The assignment need not
be total: variables whose clauses were all satisfied by other assignments
may remain Unassigned. -/
theorem c1_sat_assignment_satisfies (C : Db) (A' : Assm)
    (hnd : nodupDb C) (h : dpll C = Sum.inr (some (true, A'))) :
    ∀ c ∈ C, clauseSat A' c := by
  cases hcd : check_done C with
  | some r =>
    rw [dpll_char_some C r hcd] at h
    exact Sum.noConfusion h
  | none =>
    rw [dpll_char_none C hcd] at h
    have h2 : solve_sat (assign_pure_literals C (get_vars C)).1
        (assign_pure_literals C (get_vars C)).2 = some (true, A') := by
      injection h
    have h1 : keysND (get_vars C) := keysND_get_vars C
    have hinv : dbInv C (get_vars C) := dbInv_get_vars C
    have hpp := purePassF_inv (C.length + 1) C (get_vars C) h1 hinv hnd
    have hsat' : ∀ c' ∈ (purePassF (C.length + 1) C (get_vars C)).1, clauseSat A' c' :=
      solveSatF_sat _ _ _ _ hpp.1 h2
    have hpers : ∀ k b,
        lookupA (purePassF (C.length + 1) C (get_vars C)).2 k = some (some b) →
        lookupA A' k = some (some b) :=
      fun k b hk => solveSatF_preserves _ _ _ _ _ h2 hpp.1 k b hk
    exact purePassF_sat (C.length + 1) C (get_vars C) A' h1 hinv hnd hpers hsat'

/-- Claim C1, witness: on the concrete database `[[1]]` the engine returns
`(true, 1 ↦ True)` and that assignment satisfies clause `[1]`. -/
theorem c1_witness : clauseSat [(1, some true)] [1] :=
  c1_sat_assignment_satisfies [[1]] [(1, some true)] (by decide) (by decide)
    [1] (by decide)

/-- Claim C2: run directly on the eight-clause database holding every sign
combination over variables 1, 2, 3, the engine reports satisfiable = false. -/
theorem c2_exhaustive_unsat :
    reportedSat (dpll [[3,1,2],[3,1,-2],[3,-1,2],[-3,1,2],
      [3,-1,-2],[-3,1,-2],[-3,-1,2],[-3,-1,-2]]) = some false := by
  decide

/-- Claim C9: `dpll` on a decisive initial status check returns the bare
boolean of `check_done` (`Sum.inl`), not a `(satisfiable, assignment)` pair —
contradicting its own docstring (`returns sat ...; assm ...`) and the caller
`sat, assm = solve_puzzle(...)`, which unpacks two values. -/
theorem c9_bare_bool_return :
    dpll ([] : Db) = Sum.inl true ∧ dpll [[]] = Sum.inl false :=
  ⟨rfl, rfl⟩

/-- Claim C10, counterexample.  On `[[1,1]]` (a clause repeating a literal)
the recursive search reaches a state whose database still mentions variable 1
while no entry of the assignment is Unassigned, so `val_list.index(None)`
raises ValueError (modelled by `Sum.inr none`): the error branch is
reachable. -/
theorem c10_counterexample : dpll [[1,1]] = Sum.inr none := by decide

/-- Claim C10 (amended): provided no clause repeats a literal, every variable
occurring in the database has an Unassigned entry in the initial assignment
dictionary, the invariant is maintained at every recursive invocation, and
the search's lookup of the first Unassigned entry always succeeds — `dpll`
never reaches the ValueError branch. -/
theorem c10_invariant_no_valueerror (C : Db) (hnd : nodupDb C) :
    (∀ c ∈ C, ∀ l ∈ c, lookupA (get_vars C) l.natAbs = some none)
    ∧ dpll C ≠ Sum.inr none := by
  constructor
  · intro c hc l hl
    exact dbInv_get_vars C l c hc hl
  · cases hcd : check_done C with
    | some r =>
      rw [dpll_char_some C r hcd]
      exact fun h => Sum.noConfusion h
    | none =>
      rw [dpll_char_none C hcd]
      intro h
      have h2 : solve_sat (assign_pure_literals C (get_vars C)).1
          (assign_pure_literals C (get_vars C)).2 = none := by
        injection h
      have hpp := purePassF_inv (C.length + 1) C (get_vars C)
        (keysND_get_vars C) (dbInv_get_vars C) hnd
      exact solveSatF_ne_none _ _ _ (Nat.lt_succ_self _) hpp.2.2.1 hpp.2.1 h2

/-- Claim C10, witness: on the duplicate-free database `[[1,2]]` the engine
does not raise. -/
theorem c10_witness : dpll [[1,2]] ≠ Sum.inr none :=
  (c10_invariant_no_valueerror [[1,2]] (by decide)).2

/-! ### Claim C3: simplify -/

/-- Claim C3, counterexample.  `simplify [[-1,-1]] 1` returns `[[-1]]`: the
remaining clause still contains the literal `¬p` because Python's
`list.remove` removes only the first occurrence. -/
theorem c3_counterexample :
    simplify [[-1,-1]] 1 = [[-1]] ∧ ∃ c ∈ simplify [[-1,-1]] 1, (-1 : Int) ∈ c :=
  ⟨by decide, by decide⟩

/-- Claim C3 (amended): `simplify(D, p)` never increases the clause count,
no returned clause contains `p`, and every returned clause is an original
clause (not containing `p`) with the FIRST occurrence of `¬p` removed; in
particular a clause containing `¬p` at most once no longer contains `¬p`,
but a clause repeating `¬p` retains the remaining occurrences. -/
theorem c3_simplify_contract (D : Db) (p : Int) :
    (simplify D p).length ≤ D.length
    ∧ (∀ c ∈ simplify D p, p ∉ c)
    ∧ (∀ c ∈ simplify D p, ∃ c₀ ∈ D, p ∉ c₀ ∧ c = c₀.erase (-p))
    ∧ (∀ c₀ ∈ D, p ∉ c₀ → c₀.count (-p) ≤ 1 → (-p) ∉ c₀.erase (-p)) := by
  refine ⟨simplify_length_le D p, simplify_not_contains D p, ?_, ?_⟩
  · intro c hc
    exact (mem_simplify D p c).mp hc
  · intro c₀ _ _ hcount
    by_cases hm : (-p) ∈ c₀
    · have h1 : 0 < c₀.count (-p) := List.count_pos_iff.mpr hm
      have h2 : (c₀.erase (-p)).count (-p) = c₀.count (-p) - 1 :=
        List.count_erase_self (-p) c₀
      have h3 : (c₀.erase (-p)).count (-p) = 0 := by omega
      exact List.count_eq_zero.mp h3
    · rw [List.erase_of_not_mem hm]
      exact hm

/-- Claim C3, witness at the concrete database `[[1,2],[-1,3]]` and
literal `1`. -/
theorem c3_witness : (simplify [[1,2],[-1,3]] 1).length ≤ ([[1,2],[-1,3]] : Db).length :=
  (c3_simplify_contract [[1,2],[-1,3]] 1).1

/-! ### Claim C4: termination bounds -/

lemma purePassCountF_le :
    ∀ (fuel : Nat) (C : Db), C.length < fuel → purePassCountF fuel C ≤ C.length := by
  intro fuel
  induction fuel with
  | zero => intro C h; exact absurd h (Nat.not_lt_zero _)
  | succ f ih =>
    intro C hf
    cases hfu : findUnit C with
    | none =>
      simp only [purePassCountF, hfu]
      exact Nat.zero_le _
    | some l =>
      simp only [purePassCountF, hfu]
      have hunit : [l] ∈ C := findUnit_mem C l hfu
      have hlt : (simplify C l).length < C.length :=
        simplify_length_lt_of_mem C l [l] hunit (List.mem_singleton_self l)
      have := ih (simplify C l) (by omega)
      omega

lemma solveSatDepthF_le :
    ∀ (fuel : Nat) (C : Db) (A : Assm), solveSatDepthF fuel C A ≤ countNone A := by
  intro fuel
  induction fuel with
  | zero => intro C A; exact Nat.zero_le _
  | succ f ih =>
    intro C A
    cases hcd : check_done C with
    | some r =>
      simp only [solveSatDepthF, hcd]
      exact Nat.zero_le _
    | none =>
      cases hpv : pickVar A with
      | none =>
        simp only [solveSatDepthF, hcd, hpv]
        exact Nat.zero_le _
      | some p =>
        have hmem : (p, (none : Option Bool)) ∈ A := pickVar_mem_none A p hpv
        have hlt1 : countNone (assign A (-(p : Int))) < countNone A :=
          countNone_assign_lt A _ (by rw [natAbs_neg_coe]; exact hmem)
        have hd1 := ih (simplify C (-(p : Int))) (assign A (-(p : Int)))
        cases hrec : solveSatF f (simplify C (-(p : Int))) (assign A (-(p : Int))) with
        | none =>
          simp only [solveSatDepthF, hcd, hpv, hrec]
          omega
        | some r1 =>
          rcases r1 with ⟨sat1, a⟩
          cases sat1 with
          | true =>
            simp [solveSatDepthF, hcd, hpv, hrec]
            omega
          | false =>
            simp only [solveSatDepthF, hcd, hpv, hrec, if_neg (Bool.false_ne_true)]
            have hle2 : countNone (assign (assign A (-(p : Int))) (p : Int))
                ≤ countNone (assign A (-(p : Int))) := countNone_assign_le _ _
            have hd2 := ih (simplify C (p : Int)) (assign (assign A (-(p : Int))) (p : Int))
            have hmax : max (solveSatDepthF f (simplify C (-(p : Int))) (assign A (-(p : Int))))
                (solveSatDepthF f (simplify C (p : Int))
                  (assign (assign A (-(p : Int))) (p : Int)))
                ≤ countNone (assign A (-(p : Int))) :=
              Nat.max_le.mpr ⟨hd1, le_trans hd2 hle2⟩
            omega

/-- Claim C4, counterexample.  On `[[1],[-1,-1]]` (one distinct variable) the
unit-elimination pre-pass performs two eliminations, exceeding the claimed
bound of one (the number of distinct variables): simplifying by the unit `1`
leaves `[-1]` out of `[-1,-1]`, which is then processed as a second unit. -/
theorem c4_counterexample :
    purePassCount [[1],[-1,-1]] = 2
    ∧ (get_vars [[1],[-1,-1]]).length = 1
    ∧ ¬ (purePassCount [[1],[-1,-1]] ≤ (get_vars [[1],[-1,-1]]).length) :=
  ⟨by decide, by decide, by decide⟩

/-- Claim C4 (amended): the solver terminates on every finite database (both
loops are realized by total functions): the unit-elimination pre-pass
performs at most (clause count) eliminations, since each elimination removes
the processed unit clause — the claimed distinct-variable bound fails when a
clause repeats a literal; the recursive search has branching depth at most
the number of Unassigned entries (bounded by the number of distinct
variables, the dictionary's size), because each recursive call assigns the
previously Unassigned picked variable. -/
theorem c4_termination_bounds (C : Db) (A : Assm) :
    purePassCount C ≤ C.length
    ∧ solveSatDepth C A ≤ countNone A
    ∧ countNone A ≤ A.length := by
  refine ⟨purePassCountF_le _ C (Nat.lt_succ_self _), solveSatDepthF_le _ C A, ?_⟩
  unfold countNone
  exact List.length_filter_le _ _

/-! ### Claim C8: branching order -/

lemma solveSatF_fuel_irrel :
    ∀ (f g : Nat) (C : Db) (A : Assm), countNone A < f → countNone A < g →
      solveSatF f C A = solveSatF g C A := by
  intro f
  induction f with
  | zero => intro g C A hf; exact absurd hf (Nat.not_lt_zero _)
  | succ f ih =>
    intro g C A hf hg
    cases g with
    | zero => exact absurd hg (Nat.not_lt_zero _)
    | succ g' =>
      cases hcd : check_done C with
      | some r => simp only [solveSatF, hcd]
      | none =>
        cases hpv : pickVar A with
        | none => simp only [solveSatF, hcd, hpv]
        | some p =>
          have hmem : (p, (none : Option Bool)) ∈ A := pickVar_mem_none A p hpv
          have hlt1 : countNone (assign A (-(p : Int))) < countNone A :=
            countNone_assign_lt A _ (by rw [natAbs_neg_coe]; exact hmem)
          have hle2 : countNone (assign (assign A (-(p : Int))) (p : Int))
              ≤ countNone (assign A (-(p : Int))) := countNone_assign_le _ _
          have e1 : solveSatF f (simplify C (-(p : Int))) (assign A (-(p : Int)))
              = solveSatF g' (simplify C (-(p : Int))) (assign A (-(p : Int))) :=
            ih g' _ _ (by omega) (by omega)
          have e2 : solveSatF f (simplify C (p : Int)) (assign (assign A (-(p : Int))) (p : Int))
              = solveSatF g' (simplify C (p : Int)) (assign (assign A (-(p : Int))) (p : Int)) :=
            ih g' _ _ (by omega) (by omega)
          simp only [solveSatF, hcd, hpv, e1, e2]

/-- The recursive equation of `solve_sat` from the source, recovered for the
fuel-realized embedding: in the branching case the engine tries the picked
variable negatively first (assign False, simplify, recurse) and, if and only
if that branch reports unsatisfiable, assigns it True, simplifies, recurses,
and returns that second result unconditionally. -/
lemma solve_sat_branch_eq (C : Db) (A : Assm) (p : Nat)
    (hcd : check_done C = none) (hpv : pickVar A = some p) :
    solve_sat C A =
      match solve_sat (simplify C (-(p : Int))) (assign A (-(p : Int))) with
      | none => none
      | some (sat1, a) =>
        if sat1 then some (sat1, a)
        else solve_sat (simplify C (p : Int)) (assign (assign A (-(p : Int))) (p : Int)) := by
  have hmem : (p, (none : Option Bool)) ∈ A := pickVar_mem_none A p hpv
  have hlt1 : countNone (assign A (-(p : Int))) < countNone A :=
    countNone_assign_lt A _ (by rw [natAbs_neg_coe]; exact hmem)
  have hle2 : countNone (assign (assign A (-(p : Int))) (p : Int))
      ≤ countNone (assign A (-(p : Int))) := countNone_assign_le _ _
  have e1 : solveSatF (countNone A) (simplify C (-(p : Int))) (assign A (-(p : Int)))
      = solve_sat (simplify C (-(p : Int))) (assign A (-(p : Int))) :=
    solveSatF_fuel_irrel _ _ _ _ (by omega) (Nat.lt_succ_self _)
  have e2 : solveSatF (countNone A) (simplify C (p : Int))
        (assign (assign A (-(p : Int))) (p : Int))
      = solve_sat (simplify C (p : Int)) (assign (assign A (-(p : Int))) (p : Int)) :=
    solveSatF_fuel_irrel _ _ _ _ (by omega) (Nat.lt_succ_self _)
  show solveSatF (countNone A + 1) C A = _
  simp only [solveSatF, hcd, hpv, e1, e2]

lemma pickVar_first_none (k : Nat) (rest : Assm) :
    ∀ (pre : Assm), (∀ kv ∈ pre, kv.2 ≠ none) →
      pickVar (pre ++ (k, none) :: rest) = some k := by
  intro pre
  induction pre with
  | nil => intro _; rfl
  | cons a l ih =>
    intro hpre
    rcases a with ⟨ak, av⟩
    cases av with
    | none => exact absurd rfl (hpre (ak, none) (List.mem_cons_self _ _))
    | some b =>
      have hstep : pickVar (((ak, some b) :: l) ++ (k, none) :: rest)
          = pickVar (l ++ (k, none) :: rest) := rfl
      rw [hstep]
      exact ih (fun kv h => hpre kv (List.mem_cons_of_mem _ h))

/-- Claim C8, counterexample.  On `[[2,1],[-2,-1]]` the dictionary lists
variable 2 before variable 1 (discovery order), and the engine branches on
variable 2 even though variable 1 is Unassigned and has the smaller id; the
returned assignment (2 ↦ False tried first, then 1 ↦ True) shows the search
did not pick variables in id-ascending order. -/
theorem c8_counterexample :
    get_vars [[2,1],[-2,-1]] = [(2, none), (1, none)]
    ∧ pickVar (get_vars [[2,1],[-2,-1]]) = some 2
    ∧ (1, (none : Option Bool)) ∈ get_vars [[2,1],[-2,-1]]
    ∧ (2 : Nat) ≠ 1
    ∧ dpll [[2,1],[-2,-1]] = Sum.inr (some (true, [(2, some false), (1, some true)])) :=
  ⟨by decide, by decide, by decide, by decide, by decide⟩

/-- Claim C8 (amended): when the status check returns UNKNOWN the engine
picks the first Unassigned variable in dictionary insertion (discovery)
order — not id-ascending order — then tries assigning it False (simplify,
recurse) and, if that branch reports unsatisfiable, assigns the same
variable True and returns the second recursive verdict unconditionally;
a crash of the False branch propagates without trying True. -/
theorem c8_branching_order (C : Db) (pre rest : Assm) (k : Nat)
    (hcd : check_done C = none) (hpre : ∀ kv ∈ pre, kv.2 ≠ none) :
    pickVar (pre ++ (k, none) :: rest) = some k
    ∧ solve_sat C (pre ++ (k, none) :: rest) =
      match solve_sat (simplify C (-(k : Int))) (assign (pre ++ (k, none) :: rest) (-(k : Int))) with
      | none => none
      | some (sat1, a) =>
        if sat1 then some (sat1, a)
        else solve_sat (simplify C (k : Int))
          (assign (assign (pre ++ (k, none) :: rest) (-(k : Int))) (k : Int)) := by
  have hp := pickVar_first_none k rest pre hpre
  exact ⟨hp, solve_sat_branch_eq C _ k hcd hp⟩

/-- Claim C8, witness at the concrete database `[[1,2],[-1,-2]]` and
dictionary `[(1, none), (2, none)]`. -/
theorem c8_witness :
    pickVar (([] : Assm) ++ (1, (none : Option Bool)) :: [(2, none)]) = some 1 :=
  (c8_branching_order [[1,2],[-1,-2]] [] [(2, none)] 1 (by decide)
    (fun kv h => absurd h (List.not_mem_nil kv))).1

/-! ### The Sudoku variable table -/

lemma getD_map_range {α : Type} (f : Nat → α) (m i : Nat) (d : α) (h : i < m) :
    ((List.range m).map f).getD i d = f i := by
  rw [List.getD_eq_getElem?_getD, List.getElem?_map, List.getElem?_range h]
  rfl

lemma sIdx_closed (n x y z : Nat) (hx : x < n*n) (hy : y < n*n) (hz : z < n*n) :
    sIdx n x y z = n*n*n*n*z + n*n*y + x + 1 := by
  unfold sIdx sTable
  rw [getD_map_range _ _ _ _ hx, getD_map_range _ _ _ _ hy, getD_map_range _ _ _ _ hz]

lemma digit2_inj (n a b a' b' : Nat) (ha : a < n) (ha' : a' < n)
    (h : n*b + a = n*b' + a') : a = a' ∧ b = b' := by
  have h1 : (n*b + a) % n = a := by rw [Nat.mul_add_mod]; exact Nat.mod_eq_of_lt ha
  have h2 : (n*b' + a') % n = a' := by rw [Nat.mul_add_mod]; exact Nat.mod_eq_of_lt ha'
  have haa : a = a' := by rw [← h1, ← h2, h]
  refine ⟨haa, ?_⟩
  have hn : 0 < n := by omega
  apply Nat.eq_of_mul_eq_mul_left hn
  omega

lemma formula_inj (n x y z x' y' z' : Nat)
    (hx : x < n*n) (hy : y < n*n) (hz : z < n*n)
    (hx' : x' < n*n) (hy' : y' < n*n) (hz' : z' < n*n)
    (h : n*n*n*n*z + n*n*y + x + 1 = n*n*n*n*z' + n*n*y' + x' + 1) :
    x = x' ∧ y = y' ∧ z = z' := by
  have e : ∀ (u v w : Nat), (n*n)*((n*n)*u + v) + w = n*n*n*n*u + n*n*v + w := by
    intro u v w
    ring
  have h2 : (n*n)*((n*n)*z + y) + x = (n*n)*((n*n)*z' + y') + x' := by
    rw [e, e]
    omega
  rcases digit2_inj (n*n) x ((n*n)*z + y) x' ((n*n)*z' + y') hx hx' h2 with ⟨hxx, hrest⟩
  rcases digit2_inj (n*n) y z y' z' hy hy' hrest with ⟨hyy, hzz⟩
  exact ⟨hxx, hyy, hzz⟩

lemma decomp3 (m u : Nat) (hm : 0 < m) : m*m*(u/(m*m)) + m*((u/m)%m) + u%m = u := by
  have h1 := Nat.div_add_mod u m
  have h2 := Nat.div_add_mod (u/m) m
  have h3 : u/m/m = u/(m*m) := Nat.div_div_eq_div_mul u m m
  calc m*m*(u/(m*m)) + m*((u/m)%m) + u%m
      = m*(m*(u/m/m) + (u/m)%m) + u%m := by rw [h3]; ring
    _ = m*(u/m) + u%m := by rw [h2]
    _ = u := h1

lemma formula_surj (n v : Nat) (hn : 1 ≤ n) (h1 : 1 ≤ v) (h2 : v ≤ n^6) :
    ∃ x y z, x < n*n ∧ y < n*n ∧ z < n*n ∧ n*n*n*n*z + n*n*y + x + 1 = v := by
  have hm : 0 < n*n := Nat.mul_pos (by omega) (by omega)
  have hpow : n^6 = (n*n)*((n*n)*(n*n)) := by ring
  refine ⟨(v-1) % (n*n), ((v-1)/(n*n)) % (n*n), (v-1)/((n*n)*(n*n)), ?_, ?_, ?_, ?_⟩
  · exact Nat.mod_lt _ hm
  · exact Nat.mod_lt _ hm
  · rw [Nat.div_lt_iff_lt_mul (Nat.mul_pos hm hm)]
    have : v - 1 < n^6 := by omega
    calc v - 1 < (n*n)*((n*n)*(n*n)) := by omega
      _ = (n*n)*((n*n)*(n*n)) := rfl
  · have hd := decomp3 (n*n) (v-1) hm
    have e : n*n*n*n*((v-1)/((n*n)*(n*n))) = (n*n)*(n*n)*((v-1)/((n*n)*(n*n))) := by ring
    omega

lemma formula_bounds (n x y z : Nat) (hx : x < n*n) (hy : y < n*n) (hz : z < n*n) :
    1 ≤ n*n*n*n*z + n*n*y + x + 1 ∧ n*n*n*n*z + n*n*y + x + 1 ≤ n^6 := by
  refine ⟨by omega, ?_⟩
  have h1 : n*n*n*n*(z+1) ≤ n*n*n*n*(n*n) := Nat.mul_le_mul_left _ hz
  have h2 : n*n*(y+1) ≤ n*n*(n*n) := Nat.mul_le_mul_left _ hy
  have e1 : n*n*n*n*(z+1) = n*n*n*n*z + n*n*n*n := by ring
  have e2 : n*n*(y+1) = n*n*y + n*n := by ring
  have e3 : n*n*(n*n) = n*n*n*n := by ring
  have e4 : n*n*n*n*(n*n) = n^6 := by ring
  omega

lemma mem_sEntries (n v : Nat) :
    v ∈ sEntries n ↔
      ∃ zi yi xi, zi < n*n ∧ yi < n*n ∧ xi < n*n ∧ v = n*n*n*n*xi + n*n*yi + zi + 1 := by
  unfold sEntries
  constructor
  · intro hv
    rcases List.mem_flatMap.mp hv with ⟨pl, hpl, hv2⟩
    rcases List.mem_flatMap.mp hv2 with ⟨row, hrow, hv3⟩
    unfold sTable at hpl
    rcases List.mem_map.mp hpl with ⟨zi, hzi, rfl⟩
    rcases List.mem_map.mp hrow with ⟨yi, hyi, rfl⟩
    rcases List.mem_map.mp hv3 with ⟨xi, hxi, rfl⟩
    exact ⟨zi, yi, xi, List.mem_range.mp hzi, List.mem_range.mp hyi,
      List.mem_range.mp hxi, rfl⟩
  · rintro ⟨zi, yi, xi, hzi, hyi, hxi, rfl⟩
    apply List.mem_flatMap.mpr
    refine ⟨(List.range (n*n)).map
        (fun y => (List.range (n*n)).map (fun x => n*n*n*n*x + n*n*y + zi + 1)), ?_, ?_⟩
    · unfold sTable
      exact List.mem_map.mpr ⟨zi, List.mem_range.mpr hzi, rfl⟩
    · apply List.mem_flatMap.mpr
      exact ⟨(List.range (n*n)).map (fun x => n*n*n*n*x + n*n*yi + zi + 1),
        List.mem_map.mpr ⟨yi, List.mem_range.mpr hyi, rfl⟩,
        List.mem_map.mpr ⟨xi, List.mem_range.mpr hxi, rfl⟩⟩

/-! ### Claims C5 and C6: the variable bijection -/

/-- Claim C5, counterexample.  At `n = 2`, `x = 1`, `y = 0`, `z = 0` the
table access `s[1][0][0]` yields 2, not the claimed
`n⁴·x + n²·y + z + 1 = 17`: the list comprehension of sudoku.py nests the
loops with `z` outermost and `x` innermost, so the first subscript selects
the `z`-loop. -/
theorem c5_counterexample :
    sIdx 2 1 0 0 = 2 ∧ sIdx 2 1 0 0 ≠ 2*2*2*2*1 + 2*2*0 + 0 + 1 :=
  ⟨by decide, by decide⟩

/-- Claim C5 (amended): for every n and 0-indexed x, y, z in [0, n²), the
variable table satisfies `s[x][y][z] = n⁴·z + n²·y + x + 1` — the claimed
formula with the roles of the first and third subscripts exchanged. -/
theorem c5_table_formula (n x y z : Nat) (hx : x < n*n) (hy : y < n*n) (hz : z < n*n) :
    sIdx n x y z = n*n*n*n*z + n*n*y + x + 1 :=
  sIdx_closed n x y z hx hy hz

/-- Claim C5, witness at `n = 2`, `x = 1`, `y = 2`, `z = 3`. -/
theorem c5_witness : sIdx 2 1 2 3 = 2*2*2*2*3 + 2*2*2 + 1 + 1 :=
  c5_table_formula 2 1 2 3 (by decide) (by decide) (by decide)

/-- Claim C6: for every puzzle size n ≥ 1, the table's triple-to-variable
mapping is injective on in-range triples — two distinct triples never share
an identifier — and the set of identifiers stored in the table is exactly
the positive range 1..n⁶. -/
theorem c6_bijection (n : Nat) (hn : 1 ≤ n) :
    (∀ x y z x' y' z', x < n*n → y < n*n → z < n*n → x' < n*n → y' < n*n → z' < n*n →
      sIdx n x y z = sIdx n x' y' z' → x = x' ∧ y = y' ∧ z = z')
    ∧ (sEntries n).toFinset = Finset.Icc 1 (n^6) := by
  constructor
  · intro x y z x' y' z' hx hy hz hx' hy' hz' heq
    rw [sIdx_closed n x y z hx hy hz, sIdx_closed n x' y' z' hx' hy' hz'] at heq
    exact formula_inj n x y z x' y' z' hx hy hz hx' hy' hz' heq
  · ext v
    rw [List.mem_toFinset, mem_sEntries, Finset.mem_Icc]
    constructor
    · rintro ⟨zi, yi, xi, hzi, hyi, hxi, rfl⟩
      exact formula_bounds n zi yi xi hzi hyi hxi
    · rintro ⟨h1, h2⟩
      rcases formula_surj n v hn h1 h2 with ⟨x, y, z, hx, hy, hz, hv⟩
      exact ⟨x, y, z, hx, hy, hz, hv.symm⟩

/-- Claim C6, witness at `n = 2`: the 64 identifiers of the table are
exactly 1..64. -/
theorem c6_witness : (sEntries 2).toFinset = Finset.Icc 1 (2^6) :=
  (c6_bijection 2 (by decide)).2

/-! ### Claim C7: box clause coverage -/

lemma pass1_eq_map (n : Nat) : box_pass1 n = (tuples1 n).map (clause1 n) := by
  unfold box_pass1 tuples1 tuples1Y tuples1Z tuples1I tuples1J tuples1K
  simp only [List.map_flatMap, List.map_map]
  rfl

lemma pass2_eq_map (n : Nat) : box_pass2 n = (tuples2 n).map (clause2 n) := by
  unfold box_pass2 tuples2 tuples2Y tuples2Z tuples2I tuples2J tuples2K tuples2L
  simp only [List.map_flatMap, List.map_map]
  rfl

lemma nodup_flatMap_key {α β : Type} (l : List α) (f : α → List β) (key : β → α)
    (h1 : l.Nodup) (h2 : ∀ a ∈ l, (f a).Nodup) (hk : ∀ a ∈ l, ∀ b ∈ f a, key b = a) :
    (l.flatMap f).Nodup := by
  induction l with
  | nil => simp
  | cons a t ih =>
    rw [List.flatMap_cons, List.nodup_append]
    rcases List.nodup_cons.mp h1 with ⟨hat, ht⟩
    refine ⟨h2 a (List.mem_cons_self _ _),
      ih ht (fun a' ha' => h2 a' (List.mem_cons_of_mem _ ha'))
        (fun a' ha' => hk a' (List.mem_cons_of_mem _ ha')), ?_⟩
    intro b hb hb'
    rcases List.mem_flatMap.mp hb' with ⟨a', ha', hbf⟩
    have e1 : key b = a := hk a (List.mem_cons_self _ _) b hb
    have e2 : key b = a' := hk a' (List.mem_cons_of_mem _ ha') b hbf
    have : a' = a := by rw [← e1, ← e2]
    exact hat (this ▸ ha')

lemma mem_tuples1K_elim (n x y z i j : Nat) (q : Nat × Nat × Nat × Nat × Nat × Nat)
    (h : q ∈ tuples1K n x y z i j) :
    ∃ k, y+1 ≤ k ∧ k < n ∧ q = (x, y, z, i, j, k) := by
  unfold tuples1K at h
  rcases List.mem_map.mp h with ⟨k, hk, rfl⟩
  rcases List.mem_range'_1.mp hk with ⟨h1, h2⟩
  exact ⟨k, h1, by omega, rfl⟩

lemma mem_tuples1J_elim (n x y z i : Nat) (q : Nat × Nat × Nat × Nat × Nat × Nat)
    (h : q ∈ tuples1J n x y z i) :
    ∃ j k, j < n ∧ y+1 ≤ k ∧ k < n ∧ q = (x, y, z, i, j, k) := by
  unfold tuples1J at h
  rcases List.mem_flatMap.mp h with ⟨j, hj, hb⟩
  rcases mem_tuples1K_elim n x y z i j q hb with ⟨k, h1, h2, rfl⟩
  exact ⟨j, k, List.mem_range.mp hj, h1, h2, rfl⟩

lemma mem_tuples1I_elim (n x y z : Nat) (q : Nat × Nat × Nat × Nat × Nat × Nat)
    (h : q ∈ tuples1I n x y z) :
    ∃ i j k, i < n ∧ j < n ∧ y+1 ≤ k ∧ k < n ∧ q = (x, y, z, i, j, k) := by
  unfold tuples1I at h
  rcases List.mem_flatMap.mp h with ⟨i, hi, hb⟩
  rcases mem_tuples1J_elim n x y z i q hb with ⟨j, k, h1, h2, h3, rfl⟩
  exact ⟨i, j, k, List.mem_range.mp hi, h1, h2, h3, rfl⟩

lemma mem_tuples1Z_elim (n x y : Nat) (q : Nat × Nat × Nat × Nat × Nat × Nat)
    (h : q ∈ tuples1Z n x y) :
    ∃ z i j k, z < n*n ∧ i < n ∧ j < n ∧ y+1 ≤ k ∧ k < n ∧ q = (x, y, z, i, j, k) := by
  unfold tuples1Z at h
  rcases List.mem_flatMap.mp h with ⟨z, hz, hb⟩
  rcases mem_tuples1I_elim n x y z q hb with ⟨i, j, k, h1, h2, h3, h4, rfl⟩
  exact ⟨z, i, j, k, List.mem_range.mp hz, h1, h2, h3, h4, rfl⟩

lemma mem_tuples1Y_elim (n x : Nat) (q : Nat × Nat × Nat × Nat × Nat × Nat)
    (h : q ∈ tuples1Y n x) :
    ∃ y z i j k, y < n ∧ z < n*n ∧ i < n ∧ j < n ∧ y+1 ≤ k ∧ k < n ∧
      q = (x, y, z, i, j, k) := by
  unfold tuples1Y at h
  rcases List.mem_flatMap.mp h with ⟨y, hy, hb⟩
  rcases mem_tuples1Z_elim n x y q hb with ⟨z, i, j, k, h1, h2, h3, h4, h5, rfl⟩
  exact ⟨y, z, i, j, k, List.mem_range.mp hy, h1, h2, h3, h4, h5, rfl⟩

lemma mem_tuples1_elim (n : Nat) (q : Nat × Nat × Nat × Nat × Nat × Nat)
    (h : q ∈ tuples1 n) :
    ∃ x y z i j k, x < n ∧ y < n ∧ z < n*n ∧ i < n ∧ j < n ∧ y+1 ≤ k ∧ k < n ∧
      q = (x, y, z, i, j, k) := by
  unfold tuples1 at h
  rcases List.mem_flatMap.mp h with ⟨x, hx, hb⟩
  rcases mem_tuples1Y_elim n x q hb with ⟨y, z, i, j, k, h1, h2, h3, h4, h5, h6, rfl⟩
  exact ⟨x, y, z, i, j, k, List.mem_range.mp hx, h1, h2, h3, h4, h5, h6, rfl⟩

lemma mem_tuples1_intro (n x y z i j k : Nat) (hx : x < n) (hy : y < n) (hz : z < n*n)
    (hi : i < n) (hj : j < n) (hk1 : y+1 ≤ k) (hk2 : k < n) :
    (x, y, z, i, j, k) ∈ tuples1 n := by
  unfold tuples1 tuples1Y tuples1Z tuples1I tuples1J
  refine List.mem_flatMap.mpr ⟨x, List.mem_range.mpr hx, ?_⟩
  refine List.mem_flatMap.mpr ⟨y, List.mem_range.mpr hy, ?_⟩
  refine List.mem_flatMap.mpr ⟨z, List.mem_range.mpr hz, ?_⟩
  refine List.mem_flatMap.mpr ⟨i, List.mem_range.mpr hi, ?_⟩
  refine List.mem_flatMap.mpr ⟨j, List.mem_range.mpr hj, ?_⟩
  unfold tuples1K
  exact List.mem_map.mpr ⟨k, List.mem_range'_1.mpr ⟨hk1, by omega⟩, rfl⟩

lemma nodup_tuples1 (n : Nat) : (tuples1 n).Nodup := by
  unfold tuples1
  apply nodup_flatMap_key _ _ (fun q => q.1) (List.nodup_range n)
  · intro x _
    unfold tuples1Y
    apply nodup_flatMap_key _ _ (fun q => q.2.1) (List.nodup_range n)
    · intro y _
      unfold tuples1Z
      apply nodup_flatMap_key _ _ (fun q => q.2.2.1) (List.nodup_range (n*n))
      · intro z _
        unfold tuples1I
        apply nodup_flatMap_key _ _ (fun q => q.2.2.2.1) (List.nodup_range n)
        · intro i _
          unfold tuples1J
          apply nodup_flatMap_key _ _ (fun q => q.2.2.2.2.1) (List.nodup_range n)
          · intro j _
            unfold tuples1K
            apply List.Nodup.map
            · intro a b h
              simpa using h
            · exact List.nodup_range' _ _
          · intro j _ b hb
            rcases mem_tuples1K_elim n x y z i j b hb with ⟨k, _, _, rfl⟩
            rfl
        · intro i _ b hb
          rcases mem_tuples1J_elim n x y z i b hb with ⟨j, k, _, _, _, rfl⟩
          rfl
      · intro z _ b hb
        rcases mem_tuples1I_elim n x y z b hb with ⟨i, j, k, _, _, _, _, rfl⟩
        rfl
    · intro y _ b hb
      rcases mem_tuples1Z_elim n x y b hb with ⟨z, i, j, k, _, _, _, _, _, rfl⟩
      rfl
  · intro x _ b hb
    rcases mem_tuples1Y_elim n x b hb with ⟨y, z, i, j, k, _, _, _, _, _, _, rfl⟩
    rfl

lemma mem_tuples2L_elim (n x y z i j k : Nat) (q : Nat × Nat × Nat × Nat × Nat × Nat × Nat)
    (h : q ∈ tuples2L n x y z i j k) :
    ∃ l, l < n ∧ q = (x, y, z, i, j, k, l) := by
  unfold tuples2L at h
  rcases List.mem_map.mp h with ⟨l, hl, rfl⟩
  exact ⟨l, List.mem_range.mp hl, rfl⟩

lemma mem_tuples2K_elim (n x y z i j : Nat) (q : Nat × Nat × Nat × Nat × Nat × Nat × Nat)
    (h : q ∈ tuples2K n x y z i j) :
    ∃ k l, x+1 ≤ k ∧ k < n ∧ l < n ∧ q = (x, y, z, i, j, k, l) := by
  unfold tuples2K at h
  rcases List.mem_flatMap.mp h with ⟨k, hk, hb⟩
  rcases List.mem_range'_1.mp hk with ⟨h1, h2⟩
  rcases mem_tuples2L_elim n x y z i j k q hb with ⟨l, h3, rfl⟩
  exact ⟨k, l, h1, by omega, h3, rfl⟩

lemma mem_tuples2J_elim (n x y z i : Nat) (q : Nat × Nat × Nat × Nat × Nat × Nat × Nat)
    (h : q ∈ tuples2J n x y z i) :
    ∃ j k l, j < n ∧ x+1 ≤ k ∧ k < n ∧ l < n ∧ q = (x, y, z, i, j, k, l) := by
  unfold tuples2J at h
  rcases List.mem_flatMap.mp h with ⟨j, hj, hb⟩
  rcases mem_tuples2K_elim n x y z i j q hb with ⟨k, l, h1, h2, h3, rfl⟩
  exact ⟨j, k, l, List.mem_range.mp hj, h1, h2, h3, rfl⟩

lemma mem_tuples2I_elim (n x y z : Nat) (q : Nat × Nat × Nat × Nat × Nat × Nat × Nat)
    (h : q ∈ tuples2I n x y z) :
    ∃ i j k l, i < n ∧ j < n ∧ x+1 ≤ k ∧ k < n ∧ l < n ∧ q = (x, y, z, i, j, k, l) := by
  unfold tuples2I at h
  rcases List.mem_flatMap.mp h with ⟨i, hi, hb⟩
  rcases mem_tuples2J_elim n x y z i q hb with ⟨j, k, l, h1, h2, h3, h4, rfl⟩
  exact ⟨i, j, k, l, List.mem_range.mp hi, h1, h2, h3, h4, rfl⟩

lemma mem_tuples2Z_elim (n x y : Nat) (q : Nat × Nat × Nat × Nat × Nat × Nat × Nat)
    (h : q ∈ tuples2Z n x y) :
    ∃ z i j k l, z < n*n ∧ i < n ∧ j < n ∧ x+1 ≤ k ∧ k < n ∧ l < n ∧
      q = (x, y, z, i, j, k, l) := by
  unfold tuples2Z at h
  rcases List.mem_flatMap.mp h with ⟨z, hz, hb⟩
  rcases mem_tuples2I_elim n x y z q hb with ⟨i, j, k, l, h1, h2, h3, h4, h5, rfl⟩
  exact ⟨z, i, j, k, l, List.mem_range.mp hz, h1, h2, h3, h4, h5, rfl⟩

lemma mem_tuples2Y_elim (n x : Nat) (q : Nat × Nat × Nat × Nat × Nat × Nat × Nat)
    (h : q ∈ tuples2Y n x) :
    ∃ y z i j k l, y < n ∧ z < n*n ∧ i < n ∧ j < n ∧ x+1 ≤ k ∧ k < n ∧ l < n ∧
      q = (x, y, z, i, j, k, l) := by
  unfold tuples2Y at h
  rcases List.mem_flatMap.mp h with ⟨y, hy, hb⟩
  rcases mem_tuples2Z_elim n x y q hb with ⟨z, i, j, k, l, h1, h2, h3, h4, h5, h6, rfl⟩
  exact ⟨y, z, i, j, k, l, List.mem_range.mp hy, h1, h2, h3, h4, h5, h6, rfl⟩

lemma mem_tuples2_elim (n : Nat) (q : Nat × Nat × Nat × Nat × Nat × Nat × Nat)
    (h : q ∈ tuples2 n) :
    ∃ x y z i j k l, x < n ∧ y < n ∧ z < n*n ∧ i < n ∧ j < n ∧ x+1 ≤ k ∧ k < n ∧ l < n ∧
      q = (x, y, z, i, j, k, l) := by
  unfold tuples2 at h
  rcases List.mem_flatMap.mp h with ⟨x, hx, hb⟩
  rcases mem_tuples2Y_elim n x q hb with ⟨y, z, i, j, k, l, h1, h2, h3, h4, h5, h6, h7, rfl⟩
  exact ⟨x, y, z, i, j, k, l, List.mem_range.mp hx, h1, h2, h3, h4, h5, h6, h7, rfl⟩

lemma mem_tuples2_intro (n x y z i j k l : Nat) (hx : x < n) (hy : y < n) (hz : z < n*n)
    (hi : i < n) (hj : j < n) (hk1 : x+1 ≤ k) (hk2 : k < n) (hl : l < n) :
    (x, y, z, i, j, k, l) ∈ tuples2 n := by
  unfold tuples2 tuples2Y tuples2Z tuples2I tuples2J tuples2K
  refine List.mem_flatMap.mpr ⟨x, List.mem_range.mpr hx, ?_⟩
  refine List.mem_flatMap.mpr ⟨y, List.mem_range.mpr hy, ?_⟩
  refine List.mem_flatMap.mpr ⟨z, List.mem_range.mpr hz, ?_⟩
  refine List.mem_flatMap.mpr ⟨i, List.mem_range.mpr hi, ?_⟩
  refine List.mem_flatMap.mpr ⟨j, List.mem_range.mpr hj, ?_⟩
  refine List.mem_flatMap.mpr ⟨k, List.mem_range'_1.mpr ⟨hk1, by omega⟩, ?_⟩
  unfold tuples2L
  exact List.mem_map.mpr ⟨l, List.mem_range.mpr hl, rfl⟩

lemma nodup_tuples2 (n : Nat) : (tuples2 n).Nodup := by
  unfold tuples2
  apply nodup_flatMap_key _ _ (fun q => q.1) (List.nodup_range n)
  · intro x _
    unfold tuples2Y
    apply nodup_flatMap_key _ _ (fun q => q.2.1) (List.nodup_range n)
    · intro y _
      unfold tuples2Z
      apply nodup_flatMap_key _ _ (fun q => q.2.2.1) (List.nodup_range (n*n))
      · intro z _
        unfold tuples2I
        apply nodup_flatMap_key _ _ (fun q => q.2.2.2.1) (List.nodup_range n)
        · intro i _
          unfold tuples2J
          apply nodup_flatMap_key _ _ (fun q => q.2.2.2.2.1) (List.nodup_range n)
          · intro j _
            unfold tuples2K
            apply nodup_flatMap_key _ _ (fun q => q.2.2.2.2.2.1) (List.nodup_range' _ _)
            · intro k _
              unfold tuples2L
              apply List.Nodup.map
              · intro a b h
                simpa using h
              · exact List.nodup_range n
            · intro k _ b hb
              rcases mem_tuples2L_elim n x y z i j k b hb with ⟨l, _, rfl⟩
              rfl
          · intro j _ b hb
            rcases mem_tuples2K_elim n x y z i j b hb with ⟨k, l, _, _, _, rfl⟩
            rfl
        · intro i _ b hb
          rcases mem_tuples2J_elim n x y z i b hb with ⟨j, k, l, _, _, _, _, rfl⟩
          rfl
      · intro z _ b hb
        rcases mem_tuples2I_elim n x y z b hb with ⟨i, j, k, l, _, _, _, _, _, rfl⟩
        rfl
    · intro y _ b hb
      rcases mem_tuples2Z_elim n x y b hb with ⟨z, i, j, k, l, _, _, _, _, _, _, rfl⟩
      rfl
  · intro x _ b hb
    rcases mem_tuples2Y_elim n x b hb with ⟨y, z, i, j, k, l, _, _, _, _, _, _, _, rfl⟩
    rfl

lemma cell_lt (n i x : Nat) (hi : i < n) (hx : x < n) : n*i + x < n*n := by
  have h1 : n*(i+1) ≤ n*n := Nat.mul_le_mul_left n hi
  have h2 : n*(i+1) = n*i + n := Nat.mul_succ n i
  omega

lemma cell_div (n j y : Nat) (hy : y < n) : (n*j + y) / n = j := by
  have h0 : 0 < n := by omega
  rw [Nat.mul_add_div h0, Nat.div_eq_of_lt hy]
  omega

lemma count_eq_one_of_nodup_mem {α : Type} [BEq α] [LawfulBEq α] {l : List α} {a : α}
    (hn : l.Nodup) (ha : a ∈ l) : l.count a = 1 := by
  induction l with
  | nil => exact absurd ha (List.not_mem_nil a)
  | cons b t ih =>
    rcases List.nodup_cons.mp hn with ⟨hbt, ht⟩
    rcases List.mem_cons.mp ha with rfl | h1
    · rw [List.count_cons_self, List.count_eq_zero_of_not_mem hbt]
    · have hne : (b == a) = false := beq_eq_false_iff_ne.mpr (fun hh => hbt (hh ▸ h1))
      rw [List.count_cons, hne]
      simpa using ih ht h1

lemma neg_pair_inj (a b a' b' : Nat)
    (h : ([-(a : Int), -(b : Int)] : Clause) = [-(a' : Int), -(b' : Int)]) :
    a = a' ∧ b = b' := by
  have h1 : -(a : Int) = -(a' : Int) := by injection h
  have h2 : ([-(b : Int)] : Clause) = [-(b' : Int)] := by injection h
  have h3 : -(b : Int) = -(b' : Int) := by injection h2
  exact ⟨Nat.cast_inj.mp (neg_inj.mp h1), Nat.cast_inj.mp (neg_inj.mp h3)⟩

lemma sIdx_eq_cells (n r c zz r' c' zz' : Nat)
    (h1 : r < n*n) (h2 : c < n*n) (h3 : zz < n*n)
    (h4 : r' < n*n) (h5 : c' < n*n) (h6 : zz' < n*n)
    (h : sIdx n r c zz = sIdx n r' c' zz') : r = r' ∧ c = c' ∧ zz = zz' := by
  rw [sIdx_closed n r c zz h1 h2 h3, sIdx_closed n r' c' zz' h4 h5 h6] at h
  exact formula_inj n r c zz r' c' zz' h1 h2 h3 h4 h5 h6 h

lemma count_pass1 (n z r₁ c₁ r₂ c₂ : Nat) (hn : 1 ≤ n) (hz : z < n*n)
    (h1 : r₁ < n*n) (h2 : c₁ < n*n) (h3 : r₂ < n*n) (h4 : c₂ < n*n) :
    (box_pass1 n).count [-(sIdx n r₁ c₁ z : Int), -(sIdx n r₂ c₂ z : Int)]
      = if r₁ = r₂ ∧ c₁ / n = c₂ / n ∧ c₁ < c₂ then 1 else 0 := by
  have hn0 : 0 < n := hn
  have hnodup : (box_pass1 n).Nodup := by
    rw [pass1_eq_map]
    apply List.Nodup.map_on ?_ (nodup_tuples1 n)
    intro q hq q' hq' heq
    rcases mem_tuples1_elim n q hq with
      ⟨x, y, zz, i, j, k, hx, hy, hzz, hi, hj, hk1, hk2, rfl⟩
    rcases mem_tuples1_elim n q' hq' with
      ⟨x', y', zz', i', j', k', hx', hy', hzz', hi', hj', hk1', hk2', rfl⟩
    unfold clause1 at heq
    rcases neg_pair_inj _ _ _ _ heq with ⟨e1, e2⟩
    rcases sIdx_eq_cells n _ _ _ _ _ _ (cell_lt n i x hi hx) (cell_lt n j y hj hy) hzz
      (cell_lt n i' x' hi' hx') (cell_lt n j' y' hj' hy') hzz' e1 with ⟨er, ec, ez⟩
    rcases sIdx_eq_cells n _ _ _ _ _ _ (cell_lt n i x hi hx) (cell_lt n j k hj hk2) hzz
      (cell_lt n i' x' hi' hx') (cell_lt n j' k' hj' hk2') hzz' e2 with ⟨_, ec2, _⟩
    rcases digit2_inj n x i x' i' hx hx' er with ⟨exx, eii⟩
    rcases digit2_inj n y j y' j' hy hy' ec with ⟨eyy, ejj⟩
    rcases digit2_inj n k j k' j' hk2 hk2' ec2 with ⟨ekk, _⟩
    rw [exx, eyy, ez, eii, ejj, ekk]
  by_cases hcond : r₁ = r₂ ∧ c₁ / n = c₂ / n ∧ c₁ < c₂
  · rw [if_pos hcond]
    obtain ⟨hr, hcdiv, hclt⟩ := hcond
    apply count_eq_one_of_nodup_mem hnodup
    rw [pass1_eq_map]
    apply List.mem_map.mpr
    refine ⟨(r₁ % n, c₁ % n, z, r₁ / n, c₁ / n, c₂ % n), ?_, ?_⟩
    · apply mem_tuples1_intro
      · exact Nat.mod_lt _ hn0
      · exact Nat.mod_lt _ hn0
      · exact hz
      · rw [Nat.div_lt_iff_lt_mul hn0]
        exact h1
      · rw [Nat.div_lt_iff_lt_mul hn0]
        exact h2
      · have e1 := Nat.div_add_mod c₁ n
        have e2 := Nat.div_add_mod c₂ n
        rw [← hcdiv] at e2
        omega
      · exact Nat.mod_lt _ hn0
    · have er : n * (r₁ / n) + r₁ % n = r₁ := Nat.div_add_mod r₁ n
      have ec1 : n * (c₁ / n) + c₁ % n = c₁ := Nat.div_add_mod c₁ n
      have ec2 : n * (c₁ / n) + c₂ % n = c₂ := by
        rw [hcdiv]
        exact Nat.div_add_mod c₂ n
      show [-(sIdx n (n * (r₁ / n) + r₁ % n) (n * (c₁ / n) + c₁ % n) z : Int),
            -(sIdx n (n * (r₁ / n) + r₁ % n) (n * (c₁ / n) + c₂ % n) z : Int)]
          = [-(sIdx n r₁ c₁ z : Int), -(sIdx n r₂ c₂ z : Int)]
      rw [er, ec1, ec2, hr]
  · rw [if_neg hcond]
    apply List.count_eq_zero_of_not_mem
    rw [pass1_eq_map]
    intro hmem
    rcases List.mem_map.mp hmem with ⟨q, hq, hclause⟩
    rcases mem_tuples1_elim n q hq with
      ⟨x, y, zz, i, j, k, hx, hy, hzz, hi, hj, hk1, hk2, rfl⟩
    unfold clause1 at hclause
    rcases neg_pair_inj _ _ _ _ hclause with ⟨e1, e2⟩
    rcases sIdx_eq_cells n _ _ _ _ _ _ (cell_lt n i x hi hx) (cell_lt n j y hj hy) hzz
      h1 h2 hz e1 with ⟨er1, ec1, _⟩
    rcases sIdx_eq_cells n _ _ _ _ _ _ (cell_lt n i x hi hx) (cell_lt n j k hj hk2) hzz
      h3 h4 hz e2 with ⟨er2, ec2, _⟩
    apply hcond
    refine ⟨by omega, ?_, by omega⟩
    rw [← ec1, ← ec2, cell_div n j y hy, cell_div n j k hk2]

lemma count_pass2 (n z r₁ c₁ r₂ c₂ : Nat) (hn : 1 ≤ n) (hz : z < n*n)
    (h1 : r₁ < n*n) (h2 : c₁ < n*n) (h3 : r₂ < n*n) (h4 : c₂ < n*n) :
    (box_pass2 n).count [-(sIdx n r₁ c₁ z : Int), -(sIdx n r₂ c₂ z : Int)]
      = if r₁ / n = r₂ / n ∧ c₁ / n = c₂ / n ∧ r₁ < r₂ then 1 else 0 := by
  have hn0 : 0 < n := hn
  have hnodup : (box_pass2 n).Nodup := by
    rw [pass2_eq_map]
    apply List.Nodup.map_on ?_ (nodup_tuples2 n)
    intro q hq q' hq' heq
    rcases mem_tuples2_elim n q hq with
      ⟨x, y, zz, i, j, k, l, hx, hy, hzz, hi, hj, hk1, hk2, hl, rfl⟩
    rcases mem_tuples2_elim n q' hq' with
      ⟨x', y', zz', i', j', k', l', hx', hy', hzz', hi', hj', hk1', hk2', hl', rfl⟩
    unfold clause2 at heq
    rcases neg_pair_inj _ _ _ _ heq with ⟨e1, e2⟩
    rcases sIdx_eq_cells n _ _ _ _ _ _ (cell_lt n i x hi hx) (cell_lt n j y hj hy) hzz
      (cell_lt n i' x' hi' hx') (cell_lt n j' y' hj' hy') hzz' e1 with ⟨er, ec, ez⟩
    rcases sIdx_eq_cells n _ _ _ _ _ _ (cell_lt n i k hi hk2) (cell_lt n j l hj hl) hzz
      (cell_lt n i' k' hi' hk2') (cell_lt n j' l' hj' hl') hzz' e2 with ⟨er2, ec2, _⟩
    rcases digit2_inj n x i x' i' hx hx' er with ⟨exx, eii⟩
    rcases digit2_inj n y j y' j' hy hy' ec with ⟨eyy, ejj⟩
    rcases digit2_inj n k i k' i' hk2 hk2' er2 with ⟨ekk, _⟩
    rcases digit2_inj n l j l' j' hl hl' ec2 with ⟨ell, _⟩
    rw [exx, eyy, ez, eii, ejj, ekk, ell]
  by_cases hcond : r₁ / n = r₂ / n ∧ c₁ / n = c₂ / n ∧ r₁ < r₂
  · rw [if_pos hcond]
    obtain ⟨hrdiv, hcdiv, hrlt⟩ := hcond
    apply count_eq_one_of_nodup_mem hnodup
    rw [pass2_eq_map]
    apply List.mem_map.mpr
    refine ⟨(r₁ % n, c₁ % n, z, r₁ / n, c₁ / n, r₂ % n, c₂ % n), ?_, ?_⟩
    · apply mem_tuples2_intro
      · exact Nat.mod_lt _ hn0
      · exact Nat.mod_lt _ hn0
      · exact hz
      · rw [Nat.div_lt_iff_lt_mul hn0]
        exact h1
      · rw [Nat.div_lt_iff_lt_mul hn0]
        exact h2
      · have e1 := Nat.div_add_mod r₁ n
        have e2 := Nat.div_add_mod r₂ n
        rw [← hrdiv] at e2
        omega
      · exact Nat.mod_lt _ hn0
      · exact Nat.mod_lt _ hn0
    · have er1 : n * (r₁ / n) + r₁ % n = r₁ := Nat.div_add_mod r₁ n
      have ec1 : n * (c₁ / n) + c₁ % n = c₁ := Nat.div_add_mod c₁ n
      have er2 : n * (r₁ / n) + r₂ % n = r₂ := by
        rw [hrdiv]
        exact Nat.div_add_mod r₂ n
      have ec2 : n * (c₁ / n) + c₂ % n = c₂ := by
        rw [hcdiv]
        exact Nat.div_add_mod c₂ n
      show [-(sIdx n (n * (r₁ / n) + r₁ % n) (n * (c₁ / n) + c₁ % n) z : Int),
            -(sIdx n (n * (r₁ / n) + r₂ % n) (n * (c₁ / n) + c₂ % n) z : Int)]
          = [-(sIdx n r₁ c₁ z : Int), -(sIdx n r₂ c₂ z : Int)]
      rw [er1, ec1, er2, ec2]
  · rw [if_neg hcond]
    apply List.count_eq_zero_of_not_mem
    rw [pass2_eq_map]
    intro hmem
    rcases List.mem_map.mp hmem with ⟨q, hq, hclause⟩
    rcases mem_tuples2_elim n q hq with
      ⟨x, y, zz, i, j, k, l, hx, hy, hzz, hi, hj, hk1, hk2, hl, rfl⟩
    unfold clause2 at hclause
    rcases neg_pair_inj _ _ _ _ hclause with ⟨e1, e2⟩
    rcases sIdx_eq_cells n _ _ _ _ _ _ (cell_lt n i x hi hx) (cell_lt n j y hj hy) hzz
      h1 h2 hz e1 with ⟨er1, ec1, _⟩
    rcases sIdx_eq_cells n _ _ _ _ _ _ (cell_lt n i k hi hk2) (cell_lt n j l hj hl) hzz
      h3 h4 hz e2 with ⟨er2, ec2, _⟩
    apply hcond
    refine ⟨?_, ?_, by omega⟩
    · rw [← er1, ← er2, cell_div n i x hx, cell_div n i k hk2]
    · rw [← ec1, ← ec2, cell_div n j y hy, cell_div n j l hl]

/-- Claim C7: for every puzzle size n ≥ 1, every value index z, and every
unordered pair of distinct in-range cells lying in the same n×n box, the two
loop nests of `box_clauses` together emit exactly one 2-literal forbidding
clause for that pair (in one of its two orientations): no same-box pair is
omitted and none is emitted twice within this clause family. -/
theorem c7_box_pair_coverage (n z r₁ c₁ r₂ c₂ : Nat) (hn : 1 ≤ n) (hz : z < n*n)
    (h1 : r₁ < n*n) (h2 : c₁ < n*n) (h3 : r₂ < n*n) (h4 : c₂ < n*n)
    (hbr : r₁ / n = r₂ / n) (hbc : c₁ / n = c₂ / n) (hne : (r₁, c₁) ≠ (r₂, c₂)) :
    (box_clauses n).count [-(sIdx n r₁ c₁ z : Int), -(sIdx n r₂ c₂ z : Int)]
    + (box_clauses n).count [-(sIdx n r₂ c₂ z : Int), -(sIdx n r₁ c₁ z : Int)] = 1 := by
  unfold box_clauses
  rw [List.count_append, List.count_append]
  rw [count_pass1 n z r₁ c₁ r₂ c₂ hn hz h1 h2 h3 h4,
      count_pass1 n z r₂ c₂ r₁ c₁ hn hz h3 h4 h1 h2,
      count_pass2 n z r₁ c₁ r₂ c₂ hn hz h1 h2 h3 h4,
      count_pass2 n z r₂ c₂ r₁ c₁ hn hz h3 h4 h1 h2]
  have hne' : ¬(r₁ = r₂ ∧ c₁ = c₂) := by
    intro hh
    exact hne (by rw [hh.1, hh.2])
  rcases Nat.lt_trichotomy r₁ r₂ with hlt | heq | hgt
  · rw [if_neg (fun hh : r₁ = r₂ ∧ c₁ / n = c₂ / n ∧ c₁ < c₂ => by omega),
        if_pos (⟨hbr, hbc, hlt⟩ : r₁ / n = r₂ / n ∧ c₁ / n = c₂ / n ∧ r₁ < r₂),
        if_neg (fun hh : r₂ = r₁ ∧ c₂ / n = c₁ / n ∧ c₂ < c₁ => by omega),
        if_neg (fun hh : r₂ / n = r₁ / n ∧ c₂ / n = c₁ / n ∧ r₂ < r₁ => by omega)]
  · have hcne : c₁ ≠ c₂ := by
      intro hh
      exact hne' ⟨heq, hh⟩
    rcases Nat.lt_trichotomy c₁ c₂ with hc | hc | hc
    · rw [if_pos (⟨heq, hbc, hc⟩ : r₁ = r₂ ∧ c₁ / n = c₂ / n ∧ c₁ < c₂),
          if_neg (fun hh : r₁ / n = r₂ / n ∧ c₁ / n = c₂ / n ∧ r₁ < r₂ => by omega),
          if_neg (fun hh : r₂ = r₁ ∧ c₂ / n = c₁ / n ∧ c₂ < c₁ => by omega),
          if_neg (fun hh : r₂ / n = r₁ / n ∧ c₂ / n = c₁ / n ∧ r₂ < r₁ => by omega)]
    · exact absurd hc hcne
    · rw [if_neg (fun hh : r₁ = r₂ ∧ c₁ / n = c₂ / n ∧ c₁ < c₂ => by omega),
          if_neg (fun hh : r₁ / n = r₂ / n ∧ c₁ / n = c₂ / n ∧ r₁ < r₂ => by omega),
          if_pos (⟨heq.symm, hbc.symm, hc⟩ : r₂ = r₁ ∧ c₂ / n = c₁ / n ∧ c₂ < c₁),
          if_neg (fun hh : r₂ / n = r₁ / n ∧ c₂ / n = c₁ / n ∧ r₂ < r₁ => by omega)]
  · rw [if_neg (fun hh : r₁ = r₂ ∧ c₁ / n = c₂ / n ∧ c₁ < c₂ => by omega),
        if_neg (fun hh : r₁ / n = r₂ / n ∧ c₁ / n = c₂ / n ∧ r₁ < r₂ => by omega),
        if_neg (fun hh : r₂ = r₁ ∧ c₂ / n = c₁ / n ∧ c₂ < c₁ => by omega),
        if_pos (⟨hbr.symm, hbc.symm, hgt⟩ : r₂ / n = r₁ / n ∧ c₂ / n = c₁ / n ∧ r₂ < r₁)]

/-- Claim C7, witness: at `n = 2`, value 0, cells (0,0) and (1,1) of the
top-left box, the family contains the forbidding clause exactly once. -/
theorem c7_witness :
    (box_clauses 2).count [-(sIdx 2 0 0 0 : Int), -(sIdx 2 1 1 0 : Int)]
    + (box_clauses 2).count [-(sIdx 2 1 1 0 : Int), -(sIdx 2 0 0 0 : Int)] = 1 :=
  c7_box_pair_coverage 2 0 0 0 1 1 (by decide) (by decide) (by decide) (by decide)
    (by decide) (by decide) (by decide) (by decide) (by decide)
